import Mathlib

/-
Verification of the tikbot event-dispatch and bounded-queue core.

The definitions below are a shallow embedding of the Python source:
  src/tikbot/core/events.py   (Event, EventType, EventHandler)
  src/tikbot/core/bot.py      (comment reaction pipeline)
  src/tikbot/music/queue.py   (MusicQueue)
  src/tikbot/tts/manager.py   (TTSManager)
  src/tikbot/audio/alerts.py  (SoundAlerts)
Python dicts are modelled as association lists preserving insertion order,
machine integers as Nat or Int, wall-clock instants as Int (they are used
only through subtraction and order comparison), and fallible or external
actions (audio playback, filesystem probes) as explicit oracle parameters.
-/

namespace Tikbot

/-- Models Python's substring test `needle in haystack`. -/
def strContains (haystack needle : String) : Bool :=
  haystack.data.tails.any (fun suffix => needle.data.isPrefixOf suffix)

/-- Models Python's `str.lower()`, character by character. -/
def strLower (s : String) : String :=
  String.mk (s.data.map Char.toLower)

/-- Models Python's `str.startswith`. -/
def strStartsWith (s pre : String) : Bool :=
  pre.data.isPrefixOf s.data

/-- Accumulating scanner behind `pySplitWs`: gathers maximal runs of
non-whitespace characters. -/
def wordsAux : List Char → List Char → List String
  | [], acc => if acc.isEmpty then [] else [String.mk acc.reverse]
  | c :: cs, acc =>
    if c.isWhitespace then
      if acc.isEmpty then wordsAux cs []
      else String.mk acc.reverse :: wordsAux cs []
    else wordsAux cs (c :: acc)

/-- Models `d.get(k, dflt)` on a Python `dict` of int values kept as an
insertion-ordered association list. -/
def dictGet (d : List (String × Int)) (k : String) (dflt : Int) : Int :=
  match d.find? (fun p => p.1 == k) with
  | some p => p.2
  | none => dflt

/-- Models `k in d` on a Python `dict` of int values. -/
def dictMem (d : List (String × Int)) (k : String) : Bool :=
  (d.find? (fun p => p.1 == k)).isSome

/-- Models `d[k] = v` on a Python `dict` of int values: update the existing
entry in place, else append (insertion order preserved). -/
def dictSet (d : List (String × Int)) (k : String) (v : Int) : List (String × Int) :=
  if dictMem d k then d.map (fun p => if p.1 == k then (k, v) else p)
  else d ++ [(k, v)]

/-- Models `d.get(k)` on a Python `dict` of string values. -/
def dictGetS (d : List (String × String)) (k : String) : Option String :=
  (d.find? (fun p => p.1 == k)).map (fun p => p.2)

/- ===================== core/events.py ===================== -/

/-- `EventType` enum from core/events.py. -/
inductive EventType
  | CONNECT | DISCONNECT | COMMENT | GIFT | FOLLOW | SHARE | LIKE | JOIN
  | BOT_START | BOT_STOP | COMMAND | AUTO_RESPONSE | SPAM_DETECTED
  | TTS_START | TTS_END
  | OVERLAY_UPDATE
deriving DecidableEq, Repr

/-- `Event` dataclass from core/events.py: a type tag, a string payload map,
and a creation timestamp (datetime.now is modelled as a Nat supplied at
construction). -/
structure Event where
  type : EventType
  data : List (String × String)
  timestamp : Nat
deriving DecidableEq, Repr

/-- `EventHandler._max_history` (capacity of the history ring buffer). -/
def maxHistory : Nat := 1000

/-- The history update performed at the top of `EventHandler.emit`:
append the event, then pop the oldest entry once the buffer exceeds
`_max_history`. -/
def emitHistory (hist : List Event) (e : Event) : List Event :=
  let h := hist ++ [e]
  if h.length > maxHistory then h.drop 1 else h

/-- `EventHandler.get_event_history`: optionally filter by type, then take the
last `limit` entries; Python's `history[-limit:] if limit else history` returns
the full buffer when `limit` is zero. -/
def getEventHistory (hist : List Event) (eventType : Option EventType) (limit : Nat) :
    List Event :=
  let h := match eventType with
    | some t => hist.filter (fun e => e.type == t)
    | none => hist
  if limit ≠ 0 then h.drop (h.length - limit) else h

/-- A registered handler. Sync and async callables are collapsed to one shape
(the coroutine either completes with a Nat-valued result token or raises,
modelled as `Except.error`). -/
def Handler : Type := Event → Except String Nat

/-- `EventHandler` state: the subscription registry and the bounded history. -/
structure EventHandlerState where
  handlers : List (EventType × List Handler)
  eventHistory : List Event

/-- Handler lookup in `emit`: `self._handlers[event.type]` when the key is
present, no tasks otherwise. -/
def handlersFor (st : EventHandlerState) (t : EventType) : List Handler :=
  match st.handlers.find? (fun p => p.1 == t) with
  | some p => p.2
  | none => []

/-- Models `asyncio.gather(*tasks, ...)`: with `return_exceptions=True` every
task result (value or exception) is collected and nothing is re-raised; without
the flag the first exception propagates to the awaiter. -/
def gather (returnExceptions : Bool) (tasks : List (Except String Nat)) :
    Except String (List (Except String Nat)) :=
  if returnExceptions then Except.ok tasks
  else
    match tasks.findSome? (fun t => match t with
      | Except.error msg => some msg
      | Except.ok _ => none) with
    | some msg => Except.error msg
    | none => Except.ok tasks

/-- `EventHandler.emit`: record the event in the bounded history, build one
task per registered handler, and await them with
`asyncio.gather(*tasks, return_exceptions=True)`.  The outer `Except` is the
exception channel towards the caller of `emit`. -/
def emit (st : EventHandlerState) (e : Event) :
    Except String (EventHandlerState × List (Except String Nat)) :=
  let hist := emitHistory st.eventHistory e
  let tasks := (handlersFor st e.type).map (fun h => h e)
  match gather true tasks with
  | Except.error msg => Except.error msg
  | Except.ok results => Except.ok ({ st with eventHistory := hist }, results)

/-- A sequence of `emit` calls on one `EventHandler` (the error arm is
unreachable because `emit` gathers with `return_exceptions=True`). -/
def emitAll (st : EventHandlerState) (es : List Event) : EventHandlerState :=
  es.foldl (fun s e =>
    match emit s e with
    | Except.ok (s2, _) => s2
    | Except.error _ => s) st

/- ===================== music/queue.py ===================== -/

/-- `RequestStatus` enum from music/queue.py. -/
inductive RequestStatus
  | pending | playing | completed | skipped | failed
deriving DecidableEq, Repr

/-- `MusicRequest` dataclass from music/queue.py (datetime timestamps are
modelled as Nat). -/
structure MusicRequest where
  id : String
  title : String
  artist : String
  duration : Nat
  platform : String
  url : String
  requester : String
  requesterNickname : String
  timestamp : Nat
  status : RequestStatus := RequestStatus.pending
  album : Option String := none
  thumbnail : Option String := none
  explicit : Bool := false
deriving DecidableEq, Repr

/-- Mutable state of a `MusicQueue` instance. -/
structure MusicQueueState where
  maxQueueSize : Nat
  maxDuration : Nat
  queue : List MusicRequest
  history : List MusicRequest
  currentRequest : Option MusicRequest
  userRequestLimits : List (String × Int)
  maxRequestsPerUser : Nat
  statsTotalRequests : Nat
  statsCompletedSongs : Nat
  statsSkippedSongs : Nat
  statsFailedSongs : Nat
  statsTotalDurationPlayed : Nat
  blockedKeywords : List String
  allowedPlatforms : List String
deriving DecidableEq, Repr

/-- `MusicQueue.__init__`. -/
def musicQueueInit (maxQueueSize : Nat := 50) (maxDuration : Nat := 600) :
    MusicQueueState where
  maxQueueSize := maxQueueSize
  maxDuration := maxDuration
  queue := []
  history := []
  currentRequest := none
  userRequestLimits := []
  maxRequestsPerUser := 3
  statsTotalRequests := 0
  statsCompletedSongs := 0
  statsSkippedSongs := 0
  statsFailedSongs := 0
  statsTotalDurationPlayed := 0
  blockedKeywords := []
  allowedPlatforms := ["spotify", "youtube"]

/-- The per-entry comparison of the duplicate check in
`MusicQueue._validate_request`. -/
def dupMatch (existing r : MusicRequest) : Bool :=
  strLower existing.title == strLower r.title &&
  strLower existing.artist == strLower r.artist

/-- Error string of the duration check in `_validate_request`. -/
def durationError (maxDuration : Nat) : String :=
  "곡 길이가 너무 김 (최대 " ++ toString (maxDuration / 60) ++ "분)"

/-- Error string of the platform check in `_validate_request`. -/
def platformError (platform : String) : String :=
  "지원하지 않는 플랫폼: " ++ platform

/-- Error string of the blocked-keyword check in `_validate_request`. -/
def blockedError : String := "부적절한 내용이 포함된 요청"

/-- Error string of the duplicate check in `_validate_request`. -/
def duplicateError : String := "이미 큐에 있는 곡입니다"

/-- Error string of the capacity rejection in `add_request`. -/
def queueFullError (maxQueueSize : Nat) : String :=
  "큐가 가득 참 (최대 " ++ toString maxQueueSize ++ "곡)"

/-- Error string of the per-requester quota rejection in `add_request`. -/
def userLimitError (maxRequestsPerUser : Nat) : String :=
  "사용자당 최대 " ++ toString maxRequestsPerUser ++ "곡까지 요청 가능"

/-- `MusicQueue._validate_request`: `some err` is the dict with
`valid: False`, `none` is `valid: True`.  Checks run in source order:
duration, platform, blocked keywords, in-queue duplicate. -/
def validateRequest (s : MusicQueueState) (r : MusicRequest) : Option String :=
  if r.duration > s.maxDuration then
    some (durationError s.maxDuration)
  else if !(s.allowedPlatforms.contains r.platform) then
    some (platformError r.platform)
  else if s.blockedKeywords.any
      (fun kw => strContains (strLower (r.title ++ " " ++ r.artist)) (strLower kw)) then
    some blockedError
  else if s.queue.any (fun existing => dupMatch existing r) then
    some duplicateError
  else
    none

/-- Apostrophe character used in the acceptance message of
`MusicQueue.add_request`. -/
def sq : String := (Char.ofNat 39).toString

/-- Acceptance message of `add_request`. -/
def addedMessage (r : MusicRequest) : String :=
  sq ++ r.title ++ sq ++ "이(가) 큐에 추가되었습니다"

/-- The four result dict shapes `MusicQueue.add_request` can return:
a validation failure (`valid: False`), the capacity rejection, the
per-requester quota rejection, and the acceptance result with its queue
position. -/
inductive AddResult
  | invalid (error : String)
  | queueFull (error : String) (queueSize : Nat)
  | userLimit (error : String) (userRequests : Int)
  | added (message : String) (queuePosition : Nat) (queueSize : Nat) (requestId : String)
deriving DecidableEq, Repr

/-- The `success` field of an `add_request` result (a validation-failure dict
carries no `success` key, which reads as a falsy value). -/
def AddResult.success : AddResult → Bool
  | AddResult.added _ _ _ _ => true
  | _ => false

/-- `MusicQueue.add_request`: validate, check capacity, check the
per-requester quota, then append and bump the requester's counter. -/
def addRequest (s : MusicQueueState) (r : MusicRequest) : AddResult × MusicQueueState :=
  match validateRequest s r with
  | some err => (AddResult.invalid err, s)
  | none =>
    if s.queue.length ≥ s.maxQueueSize then
      (AddResult.queueFull (queueFullError s.maxQueueSize) s.queue.length, s)
    else
      let userRequests := dictGet s.userRequestLimits r.requester 0
      if userRequests ≥ (s.maxRequestsPerUser : Int) then
        (AddResult.userLimit (userLimitError s.maxRequestsPerUser) userRequests, s)
      else
        let q := s.queue ++ [r]
        (AddResult.added (addedMessage r) q.length q.length r.id,
          { s with
              queue := q
              userRequestLimits := dictSet s.userRequestLimits r.requester (userRequests + 1)
              statsTotalRequests := s.statsTotalRequests + 1 })

/-- `MusicQueue.get_next_request`: move the current song (marked completed)
into history and decrement its requester's counter, then pop the queue head
and mark it playing. -/
def getNextRequest (s : MusicQueueState) : Option MusicRequest × MusicQueueState :=
  match s.queue with
  | [] => (none, s)
  | h :: rest =>
    let s1 := match s.currentRequest with
      | some cur =>
        { s with
            history := s.history ++ [{ cur with status := RequestStatus.completed }]
            statsCompletedSongs := s.statsCompletedSongs + 1
            statsTotalDurationPlayed := s.statsTotalDurationPlayed + cur.duration
            userRequestLimits :=
              if dictMem s.userRequestLimits cur.requester then
                dictSet s.userRequestLimits cur.requester
                  (dictGet s.userRequestLimits cur.requester 0 - 1)
              else s.userRequestLimits }
      | none => s
    let cur := { h with status := RequestStatus.playing }
    (some cur, { s1 with queue := rest, currentRequest := some cur })

/-- `MusicQueue.skip_current` (the reason argument is only logged). -/
def skipCurrent (s : MusicQueueState) (reason : String := "사용자 요청") :
    Bool × MusicQueueState :=
  match s.currentRequest with
  | none => (false, s)
  | some cur =>
    let _ := reason
    (true,
      { s with
          history := s.history ++ [{ cur with status := RequestStatus.skipped }]
          statsSkippedSongs := s.statsSkippedSongs + 1
          userRequestLimits :=
            if dictMem s.userRequestLimits cur.requester then
              dictSet s.userRequestLimits cur.requester
                (dictGet s.userRequestLimits cur.requester 0 - 1)
            else s.userRequestLimits
          currentRequest := none })

/-- Outcome of the scan loop in `MusicQueue.remove_request`: the first queue
entry with the requested id is removed, unless the requester filter rejects it
(in which case the loop returns False immediately). -/
inductive RemoveScan
  | notFound
  | forbidden
  | removed (r : MusicRequest) (rest : List MusicRequest)
deriving Repr

/-- The `for i, request in enumerate(self.queue)` scan of
`MusicQueue.remove_request`. -/
def scanRemove (queue : List MusicRequest) (requestId : String)
    (requester : Option String) : RemoveScan :=
  match queue with
  | [] => RemoveScan.notFound
  | q :: qs =>
    if q.id == requestId then
      match requester with
      | some u => if q.requester != u then RemoveScan.forbidden else RemoveScan.removed q qs
      | none => RemoveScan.removed q qs
    else
      match scanRemove qs requestId requester with
      | RemoveScan.notFound => RemoveScan.notFound
      | RemoveScan.forbidden => RemoveScan.forbidden
      | RemoveScan.removed r rest => RemoveScan.removed r (q :: rest)

/-- `MusicQueue.remove_request`. -/
def removeRequest (s : MusicQueueState) (requestId : String)
    (requester : Option String := none) : Bool × MusicQueueState :=
  match scanRemove s.queue requestId requester with
  | RemoveScan.notFound => (false, s)
  | RemoveScan.forbidden => (false, s)
  | RemoveScan.removed removedRequest rest =>
    (true,
      { s with
          queue := rest
          userRequestLimits :=
            if dictMem s.userRequestLimits removedRequest.requester then
              dictSet s.userRequestLimits removedRequest.requester
                (dictGet s.userRequestLimits removedRequest.requester 0 - 1)
            else s.userRequestLimits })

/-- `MusicQueue.clear_queue` (admin only): empties the queue and the whole
per-requester counter dict. -/
def clearQueue (s : MusicQueueState) (admin : Bool := false) : Bool × MusicQueueState :=
  if !admin then (false, s)
  else (true, { s with queue := [], userRequestLimits := [] })

/-- One externally drivable `MusicQueue` operation. -/
inductive QueueOp
  | add (r : MusicRequest)
  | next
  | skip (reason : String)
  | remove (requestId : String) (requester : Option String)
  | clear (admin : Bool)
deriving DecidableEq

/-- State effect of a `MusicQueue` operation. -/
def applyOp (s : MusicQueueState) : QueueOp → MusicQueueState
  | QueueOp.add r => (addRequest s r).2
  | QueueOp.next => (getNextRequest s).2
  | QueueOp.skip reason => (skipCurrent s reason).2
  | QueueOp.remove rid u => (removeRequest s rid u).2
  | QueueOp.clear a => (clearQueue s a).2

/-- Run a sequence of `MusicQueue` operations. -/
def runOps (s : MusicQueueState) (ops : List QueueOp) : MusicQueueState :=
  ops.foldl applyOp s

/-- Every request the queue state still holds: queued, currently playing,
or retained in history. -/
def requestsOf (s : MusicQueueState) : List MusicRequest :=
  s.queue ++ (match s.currentRequest with | some c => [c] | none => []) ++ s.history

/-- Status well-formedness maintained by the `MusicQueue` operations: queued
requests are pending, the current request is playing, history entries are
terminal. -/
def WF (s : MusicQueueState) : Prop :=
  (∀ r ∈ s.queue, r.status = RequestStatus.pending) ∧
  (∀ r, s.currentRequest = some r → r.status = RequestStatus.playing) ∧
  (∀ r ∈ s.history,
    r.status = RequestStatus.completed ∨ r.status = RequestStatus.skipped ∨
    r.status = RequestStatus.failed)

/-- Request ids held by the state are pairwise distinct (ids are md5 hashes of
platform id, requester and creation instant). -/
def idsNodup (s : MusicQueueState) : Prop :=
  ((requestsOf s).map MusicRequest.id).Nodup

/-- Side condition on an operation: an added request is freshly constructed
(status pending, id not already held by the queue state). -/
def OpOk (s : MusicQueueState) : QueueOp → Prop
  | QueueOp.add r =>
      r.status = RequestStatus.pending ∧ ∀ x ∈ requestsOf s, x.id ≠ r.id
  | _ => True

/-- All operations of a sequence satisfy their side condition in the state
they execute in. -/
def ValidOps : MusicQueueState → List QueueOp → Prop
  | _, [] => True
  | s, op :: rest => OpOk s op ∧ ValidOps (applyOp s op) rest

/-- Reachability in the request lifecycle
pending → playing → completed | skipped | failed. -/
def statusReach : RequestStatus → RequestStatus → Bool
  | RequestStatus.pending, _ => true
  | RequestStatus.playing, RequestStatus.pending => false
  | RequestStatus.playing, _ => true
  | a, b => a == b

/-- Number of requests of requester `u` currently admitted (queued or
playing). -/
def outstanding (s : MusicQueueState) (u : String) : Nat :=
  (s.queue.filter (fun r => r.requester == u)).length +
  (match s.currentRequest with
    | some c => if c.requester == u then 1 else 0
    | none => 0)

/-- Bookkeeping invariant of `user_request_limits`: every requester's read
counter equals their number of admitted (queued or playing) requests — each
accepted request counted once, each departure subtracted once. -/
def CountInv (s : MusicQueueState) : Prop :=
  ∀ u, dictGet s.userRequestLimits u 0 = (outstanding s u : Int)

/-- Sequential submission of a batch of requests (`add_request` in a loop),
collecting the per-request results. -/
def addAll (s : MusicQueueState) : List MusicRequest → List AddResult × MusicQueueState
  | [] => ([], s)
  | r :: rest =>
    let step := addRequest s r
    let tail := addAll step.2 rest
    (step.1 :: tail.1, tail.2)

/- ===================== tts/manager.py ===================== -/

/-- `TTSRequest` dataclass from tts/manager.py. -/
structure TTSRequest where
  text : String
  username : String := ""
  priority : Nat := 1
deriving DecidableEq, Repr

/-- Mutable state of a `TTSManager` instance (`self.engine is not None` is the
Bool `engineAvailable`; the asyncio queue of maxsize 50 is the list plus its
bound). -/
structure TTSManagerState where
  enabled : Bool
  engineAvailable : Bool
  ttsQueue : List TTSRequest
  ttsQueueMaxsize : Nat
  maxLength : Nat
  minLength : Nat
  blockedWords : List String
  vipUsers : List String
  statsTotalRequests : Nat
  statsSuccessfulPlays : Nat
  statsFilteredMessages : Nat
  statsQueueFullDrops : Nat
deriving DecidableEq, Repr

/-- `TTSManager.__init__` with the config values it reads (`enabled`,
`max_length` default 100, `min_length` default 1, `blocked_words`,
`vip_users`); no per-user request quota is read from the config anywhere. -/
def ttsManagerInit (enabled : Bool) (engineAvailable : Bool)
    (maxLength : Nat := 100) (minLength : Nat := 1)
    (blockedWords : List String := []) (vipUsers : List String := []) :
    TTSManagerState where
  enabled := enabled
  engineAvailable := engineAvailable
  ttsQueue := []
  ttsQueueMaxsize := 50
  maxLength := maxLength
  minLength := minLength
  blockedWords := blockedWords
  vipUsers := vipUsers
  statsTotalRequests := 0
  statsSuccessfulPlays := 0
  statsFilteredMessages := 0
  statsQueueFullDrops := 0

/-- Python `str.isdigit` on the text with spaces removed (empty string is
falsy, so all-space or empty text does not match this filter). -/
def isAllDigits (text : String) : Bool :=
  let t := text.data.filter (fun c => c ≠ ' ')
  !t.isEmpty && t.all Char.isDigit

/-- `TTSManager._is_text_valid`: length bounds, blocked words, URL fragments,
digits-only text (the username parameter is unused in the source as well). -/
def isTextValid (s : TTSManagerState) (text : String) (username : String) : Bool :=
  let _ := username
  if text.length < s.minLength || text.length > s.maxLength then false
  else if s.blockedWords.any (fun word => strContains (strLower text) word) then false
  else if strContains (strLower text) "http" || strContains (strLower text) "www." then false
  else if isAllDigits text then false
  else true

/-- `TTSManager.request_tts`: returns a plain Bool; the total-requests counter
is bumped before filtering (so it appears in every branch past the enabled
check), the request is appended on success, and a full queue bumps the drop
counter (`put_nowait` raising `QueueFull`). -/
def requestTts (s : TTSManagerState) (text : String) (username : String := "")
    (priority : Nat := 2) : Bool × TTSManagerState :=
  if !s.enabled || !s.engineAvailable then (false, s)
  else if !isTextValid s text username then
    (false, { s with
        statsTotalRequests := s.statsTotalRequests + 1
        statsFilteredMessages := s.statsFilteredMessages + 1 })
  else if s.ttsQueue.length < s.ttsQueueMaxsize then
    (true, { s with
        statsTotalRequests := s.statsTotalRequests + 1
        ttsQueue := s.ttsQueue ++ [⟨text, username, priority⟩] })
  else
    (false, { s with
        statsTotalRequests := s.statsTotalRequests + 1
        statsQueueFullDrops := s.statsQueueFullDrops + 1 })

/-- Sequential TTS submissions from the same user, collecting the Bool
results. -/
def requestTtsAll (s : TTSManagerState) (username : String) :
    List String → List Bool × TTSManagerState
  | [] => ([], s)
  | text :: rest =>
    let step := requestTts s text username
    let tail := requestTtsAll step.2 username rest
    (step.1 :: tail.1, tail.2)

/- ===================== audio/alerts.py ===================== -/

/-- `AlertType` enum from audio/alerts.py. -/
inductive AlertType
  | FOLLOW | GIFT | COMMENT | LIKE | SHARE | JOIN | COMMAND | WELCOME | MILESTONE
deriving DecidableEq, Repr

/-- The condition keys `SoundAlerts._check_conditions` reads
(`min_count`, `min_coins`, `vip_only`). -/
structure AlertConditions where
  minCount : Option Int := none
  minCoins : Option Int := none
  vipOnly : Bool := false
deriving DecidableEq, Repr

/-- `SoundAlert` dataclass (the Python float volume, inert in the embedded
control flow, is stored as its value in percent; a conditions value of `none`
covers both `None` and the falsy empty dict). -/
structure SoundAlert where
  name : String
  filePath : String
  volumePercent : Nat
  cooldown : Int := 0
  enabled : Bool := true
  conditions : Option AlertConditions := none
deriving DecidableEq, Repr

/-- The event payload fields `SoundAlerts._check_conditions` reads from
`event_data`, with their `.get` defaults. -/
structure AlertEventData where
  giftCount : Int := 0
  coins : Int := 0
  isVip : Bool := false
deriving DecidableEq, Repr

/-- Mutable state of a `SoundAlerts` instance; wall-clock instants
(`time.time()` floats, used only through subtraction and order comparison)
are modelled as Int. -/
structure SoundAlertsState where
  playerAvailable : Bool
  alerts : List (AlertType × List SoundAlert)
  cooldowns : List (String × Int)
  statsTotalAlerts : Nat
  statsAlertsPlayed : Nat
  statsAlertsSkipped : Nat
  statsCooldownBlocks : Nat
deriving DecidableEq, Repr

/-- `SoundAlerts._map_event_to_alert`. -/
def mapEventToAlert : EventType → Option AlertType
  | EventType.FOLLOW => some AlertType.FOLLOW
  | EventType.GIFT => some AlertType.GIFT
  | EventType.COMMENT => some AlertType.COMMENT
  | EventType.LIKE => some AlertType.LIKE
  | EventType.SHARE => some AlertType.SHARE
  | EventType.JOIN => some AlertType.JOIN
  | EventType.COMMAND => some AlertType.COMMAND
  | _ => none

/-- `self.alerts.get(alert_type, [])`. -/
def alertsGet (alerts : List (AlertType × List SoundAlert)) (t : AlertType) :
    List SoundAlert :=
  match alerts.find? (fun p => p.1 == t) with
  | some p => p.2
  | none => []

/-- `SoundAlerts._check_conditions`. -/
def checkConditions (c : AlertConditions) (d : AlertEventData) : Bool :=
  if (match c.minCount with | some m => decide (d.giftCount < m) | none => false) then false
  else if (match c.minCoins with | some m => decide (d.coins < m) | none => false) then false
  else if c.vipOnly && !d.isVip then false
  else true

/-- `SoundAlerts._find_suitable_alert`: first enabled alert whose sound file
exists (the filesystem probe is the `fileExists` oracle) and whose conditions
hold. -/
def findSuitableAlert (fileExists : String → Bool) (alerts : List SoundAlert)
    (d : AlertEventData) : Option SoundAlert :=
  alerts.find? (fun a =>
    a.enabled && fileExists a.filePath &&
    (match a.conditions with
      | some c => checkConditions c d
      | none => true))

/-- `SoundAlerts._is_in_cooldown` at wall-clock instant `now`: blocked while
the time since the recorded last firing is strictly below the cooldown
(a never-fired alert reads a last-played instant of 0). -/
def isInCooldown (s : SoundAlertsState) (now : Int) (alert : SoundAlert) : Bool :=
  if alert.cooldown ≤ 0 then false
  else now - dictGet s.cooldowns alert.name 0 < alert.cooldown

/-- `SoundAlerts._set_cooldown`: record `now` as the last firing instant. -/
def setCooldown (s : SoundAlertsState) (now : Int) (alert : SoundAlert) :
    SoundAlertsState :=
  if alert.cooldown > 0 then
    { s with cooldowns := dictSet s.cooldowns alert.name now }
  else s

/-- `SoundAlerts.trigger_alert` at instant `now`; the audio backend outcome
(`self._play_alert`, which swallows exceptions into False) is the
`playResult` oracle. -/
def triggerAlert (s : SoundAlertsState) (now : Int) (fileExists : String → Bool)
    (playResult : Bool) (eventType : EventType) (d : AlertEventData) :
    Bool × SoundAlertsState :=
  if !s.playerAvailable then (false, s)
  else
    match mapEventToAlert eventType with
    | none => (false, s)
    | some alertType =>
      let alerts := alertsGet s.alerts alertType
      if alerts.isEmpty then (false, s)
      else
        match findSuitableAlert fileExists alerts d with
        | none => (false, { s with statsAlertsSkipped := s.statsAlertsSkipped + 1 })
        | some suitableAlert =>
          if isInCooldown s now suitableAlert then
            (false, { s with statsCooldownBlocks := s.statsCooldownBlocks + 1 })
          else
            let s1 :=
              if playResult then
                setCooldown { s with statsAlertsPlayed := s.statsAlertsPlayed + 1 }
                  now suitableAlert
              else { s with statsAlertsSkipped := s.statsAlertsSkipped + 1 }
            (playResult, { s1 with statsTotalAlerts := s1.statsTotalAlerts + 1 })

/- ===================== core/bot.py ===================== -/

/-- The feature switches `TikBot` reads from `config.features`. -/
structure FeaturesConfig where
  commandProcessing : Bool
  autoResponse : Bool
  spamFilter : Bool
  ttsEnabled : Bool
deriving DecidableEq, Repr

/-- The slice of `BotConfig` the comment pipeline reads: commands,
auto-responses (insertion-ordered), spam keywords, feature switches, and the
`tts.auto_read_chat` flag. -/
structure BotConfigM where
  features : FeaturesConfig
  commands : List (String × String)
  autoResponses : List (String × List String)
  spamKeywords : List String
  autoReadChat : Bool
deriving Repr

/-- `TikBot.stats` counters. -/
structure BotStats where
  messagesReceived : Nat := 0
  commandsProcessed : Nat := 0
  autoResponsesSent : Nat := 0
  giftsReceived : Nat := 0
  followersGained : Nat := 0
  spamFiltered : Nat := 0
deriving DecidableEq, Repr

/-- The comment payload fields the pipeline reads. -/
structure CommentEv where
  username : String
  nickname : String
  comment : String
  userId : String
deriving DecidableEq, Repr

/-- An event emitted by the comment pipeline through
`event_handler.emit_simple`. -/
inductive EmittedEvent
  | spamDetected (username comment : String)
  | command (username command response : String)
  | autoResponse (username keyword response : String)
deriving DecidableEq, Repr

/-- `TikBot._is_spam`. -/
def isSpam (cfg : BotConfigM) (message : String) : Bool :=
  if !cfg.features.spamFilter then false
  else cfg.spamKeywords.any (fun kw => strContains (strLower message) (strLower kw))

/-- Python `str.split()` with no argument: split on whitespace runs, dropping
empty pieces. -/
def pySplitWs (s : String) : List String :=
  wordsAux s.data []

/-- `event.comment.split()[0]` (the pipeline only evaluates this on comments
beginning with an exclamation mark, so a first token exists). -/
def firstToken (s : String) : String :=
  (pySplitWs s).headD ""

/-- `TikBot._process_command`: look the lowercased first token up in the
command table; `!time`, `!stats` and `!commands` get computed responses
(`formatRuntime` abstracts Python's `str(timedelta)` rendering of the
uptime). -/
def processCommand (cfg : BotConfigM) (stats : BotStats) (startTime : Option Nat)
    (formatRuntime : String) (e : CommentEv) : List EmittedEvent × BotStats :=
  let command := strLower (firstToken e.comment)
  match dictGetS cfg.commands command with
  | none => ([], stats)
  | some response0 =>
    let response :=
      if command == "!time" && startTime.isSome then
        "현재 방송 시간: " ++ formatRuntime
      else if command == "!stats" then
        "📊 통계 - 메시지: " ++ toString stats.messagesReceived ++
        ", 선물: " ++ toString stats.giftsReceived ++
        ", 팔로워: " ++ toString stats.followersGained
      else if command == "!commands" then
        "🤖 사용 가능한 명령어: " ++
        String.intercalate ", " ((cfg.commands.map Prod.fst).take 8)
      else response0
    ([EmittedEvent.command e.username command response],
      { stats with commandsProcessed := stats.commandsProcessed + 1 })

/-- `TikBot._process_auto_response`: first keyword match in insertion order
wins; `pick` abstracts `random.choice` over the response list. -/
def processAutoResponse (cfg : BotConfigM) (stats : BotStats)
    (pick : List String → String) (e : CommentEv) : List EmittedEvent × BotStats :=
  let message := strLower e.comment
  match cfg.autoResponses.find? (fun p => strContains message (strLower p.1)) with
  | some p =>
    ([EmittedEvent.autoResponse e.username p.1 (pick p.2)],
      { stats with autoResponsesSent := stats.autoResponsesSent + 1 })
  | none => ([], stats)

/-- `TikBot._process_tts`: an explicit `!tts ` command submits the stripped
text at priority 1; otherwise ambient chat of length 5..50 is submitted at
priority 2 when `auto_read_chat` is set. -/
def processTtsComment (cfg : BotConfigM) (tts : TTSManagerState) (e : CommentEv) :
    TTSManagerState :=
  if strStartsWith e.comment "!tts " then
    let text := (e.comment.drop 5).trim
    if text ≠ "" then (requestTts tts text e.username 1).2 else tts
  else if cfg.autoReadChat then
    if 5 ≤ e.comment.length && e.comment.length ≤ 50 then
      (requestTts tts e.comment e.username 2).2
    else tts
  else tts

/-- The `handle_comment` subscriber registered in
`TikBot._register_internal_handlers`: spam check first (terminal), then the
command path, else the auto-response path, then the independent TTS step.
Returns the emitted events, the updated stats, and the updated TTS manager
state (`none` models an absent `_tts_manager`). -/
def handleComment (cfg : BotConfigM) (stats : BotStats) (startTime : Option Nat)
    (formatRuntime : String) (pick : List String → String)
    (tts : Option TTSManagerState) (e : CommentEv) :
    List EmittedEvent × BotStats × Option TTSManagerState :=
  let stats1 := { stats with messagesReceived := stats.messagesReceived + 1 }
  if isSpam cfg e.comment then
    ([EmittedEvent.spamDetected e.username e.comment],
      { stats1 with spamFiltered := stats1.spamFiltered + 1 }, tts)
  else
    let main :=
      if strStartsWith e.comment "!" && cfg.features.commandProcessing then
        processCommand cfg stats1 startTime formatRuntime e
      else if cfg.features.autoResponse then
        processAutoResponse cfg stats1 pick e
      else ([], stats1)
    let tts2 :=
      match tts with
      | some t => if cfg.features.ttsEnabled then some (processTtsComment cfg t e) else tts
      | none => none
    (main.1, main.2, tts2)

/- ===================== concrete fixtures ===================== -/

/-- A handler that raises. -/
def hRaise : Handler := fun _ => Except.error "boom"

/-- A handler that completes, its result token standing for its side
effect. -/
def hWork : Handler := fun _ => Except.ok 1

/-- An `EventHandler` with two GIFT subscribers, one of which raises. -/
def stC1 : EventHandlerState :=
  { handlers := [(EventType.GIFT, [hRaise, hWork])], eventHistory := [] }

/-- A concrete GIFT event. -/
def evGift : Event :=
  { type := EventType.GIFT, data := [("username", "alice")], timestamp := 0 }

/-- Builder for concrete music requests (platform youtube, duration 100s). -/
def mkReq (id title artist requester : String) (duration : Nat := 100) :
    MusicRequest where
  id := id
  title := title
  artist := artist
  duration := duration
  platform := "youtube"
  url := "url"
  requester := requester
  requesterNickname := requester
  timestamp := 0

/-- A music queue in which alice already has three outstanding requests. -/
def sQuota : MusicQueueState :=
  { musicQueueInit with
      queue := [mkReq "1" "a" "x" "alice", mkReq "2" "b" "x" "alice",
                mkReq "3" "c" "x" "alice"]
      userRequestLimits := [("alice", 3)]
      statsTotalRequests := 3 }

/-- A music queue already holding the song Song/Artist. -/
def sDup : MusicQueueState :=
  { musicQueueInit with
      queue := [mkReq "1" "Song" "Artist" "bob"]
      userRequestLimits := [("bob", 1)]
      statsTotalRequests := 1 }

/-- A duplicate of the queued Song/Artist whose duration also exceeds the
10-minute ceiling. -/
def rDupLong : MusicRequest := mkReq "2" "song" "artist" "carol" 9999

/-- An otherwise-valid duplicate of the queued Song/Artist. -/
def rDupOk : MusicRequest := mkReq "3" "SONG" "ARTIST" "carol"

/-- An enabled TTS manager backed by a live engine. -/
def ttsReady : TTSManagerState := ttsManagerInit true true

/-- The follow alert of `_load_default_alerts` (volume 0.8, cooldown 2s). -/
def followAlert : SoundAlert :=
  { name := "새 팔로워", filePath := "static/sounds/follow.wav",
    volumePercent := 80, cooldown := 2 }

/-- A `SoundAlerts` state whose follow alert last fired at instant 10. -/
def sAlerts : SoundAlertsState :=
  { playerAvailable := true
    alerts := [(AlertType.FOLLOW, [followAlert])]
    cooldowns := [("새 팔로워", 10)]
    statsTotalAlerts := 0
    statsAlertsPlayed := 0
    statsAlertsSkipped := 0
    statsCooldownBlocks := 0 }

/-- Bot config with the spam filter on: `buy` is a spam keyword, `!hello` a
registered command, `hello` an auto-response keyword. -/
def cfgSpam : BotConfigM :=
  { features :=
      { commandProcessing := true, autoResponse := true, spamFilter := true,
        ttsEnabled := false }
    commands := [("!hello", "hi")]
    autoResponses := [("hello", ["hey"])]
    spamKeywords := ["buy"]
    autoReadChat := false }

/-- The same bot config with a spam keyword the test comment does not
contain. -/
def cfgClean : BotConfigM := { cfgSpam with spamKeywords := ["xyz"] }

/-- A comment that starts with the registered command `!hello`, contains the
auto-response keyword `hello`, and contains the spam keyword `buy`. -/
def evSpammyCommand : CommentEv :=
  { username := "user", nickname := "nick", comment := "!hello buy", userId := "1" }

/-- A comment that starts with the registered command `!hello` and contains
the auto-response keyword `hello`, with no spam keyword. -/
def evCleanCommand : CommentEv :=
  { username := "user", nickname := "nick", comment := "!hello world", userId := "1" }

/-- A minimal event for bulk emission. -/
def evPing : Event := { type := EventType.LIKE, data := [], timestamp := 0 }

/-- First request alice submits in the clear-queue scenario. -/
def reqAlice1 : MusicRequest := mkReq "a1" "t1" "x" "alice"

/-- Second request alice submits in the clear-queue scenario. -/
def reqAlice2 : MusicRequest := mkReq "a2" "t2" "x" "alice"

/-- The operation sequence that drives alice's counter negative: her first
song starts playing, an admin clears the queue (wiping the counter dict),
she submits again, her old song completes (decrementing the fresh counter to
zero), and the new song is skipped. -/
def opsClearTrace : List QueueOp :=
  [QueueOp.add reqAlice1, QueueOp.next, QueueOp.clear true,
   QueueOp.add reqAlice2, QueueOp.next, QueueOp.skip "r"]

/-- A small lifecycle trace: admit, start playing, skip. -/
def opsSmallTrace : List QueueOp :=
  [QueueOp.add reqAlice1, QueueOp.next, QueueOp.skip "r"]

/- ===================== claim statement forms ===================== -/

/-- History-bound property of a sequence of emit calls: the retained buffer
is exactly the last `maxHistory` events in emission order, a
`get_event_history` call with that limit returns it whole, and every
`get_event_history` call returns only events from it. -/
def historyBoundClaim (st0 : EventHandlerState) (es : List Event) : Prop :=
  (emitAll st0 es).eventHistory = es.drop (es.length - maxHistory) ∧
  getEventHistory (emitAll st0 es).eventHistory none maxHistory =
    (emitAll st0 es).eventHistory ∧
  ∀ t l e, e ∈ getEventHistory (emitAll st0 es).eventHistory t l →
    e ∈ es.drop (es.length - maxHistory)

/-- Capacity property of submitting a batch to a fresh queue of capacity `M`:
one result per request, the first `M` accepted, the following one rejected
with the capacity error (recorded queue size `M`). -/
def capacityClaim (M maxDur : Nat) (rs : List MusicRequest) : Prop :=
  (addAll (musicQueueInit M maxDur) rs).1.length = rs.length ∧
  (∀ i, i < M →
    ((addAll (musicQueueInit M maxDur) rs).1.getD i (AddResult.invalid "")).success
      = true) ∧
  (addAll (musicQueueInit M maxDur) rs).1.getD M (AddResult.invalid "")
    = AddResult.queueFull (queueFullError M) M

/-- No single operation can push the stored queue beyond its configured
maximum size. -/
def queueNeverExceeds : Prop :=
  ∀ (s : MusicQueueState) (op : QueueOp),
    s.queue.length ≤ s.maxQueueSize →
    (applyOp s op).queue.length ≤ s.maxQueueSize

/-- Status monotonicity over a run: any request still held after the run,
matched by id with a request held before it, has only moved forward in the
lifecycle. -/
def statusMonotone (s : MusicQueueState) (ops : List QueueOp) : Prop :=
  ∀ r ∈ requestsOf s, ∀ r2 ∈ requestsOf (runOps s ops), r.id = r2.id →
    statusReach r.status r2.status = true

/-- The operation sequence contains no `clear_queue` call. -/
def noClearOps (ops : List QueueOp) : Prop :=
  ∀ op ∈ ops, ∀ b, op ≠ QueueOp.clear b

/-- Queue state reached after a fresh queue of capacity `M` accepted the
batch `p`: the requests sit in the queue in order and each requester holds
one counter unit per accepted request (the batches considered have pairwise
distinct requesters). -/
def stateAfter (M maxDur : Nat) (p : List MusicRequest) : MusicQueueState :=
  { musicQueueInit M maxDur with
      queue := p
      userRequestLimits := p.map (fun r => (r.requester, (1 : Int)))
      statsTotalRequests := p.length }

/-- Expected `add_request` results for a batch submitted to a queue of
capacity `M` already holding `base` requests: acceptances with increasing
positions until the queue fills, capacity rejections after. -/
def resultsExpected (M : Nat) : Nat → List MusicRequest → List AddResult
  | _, [] => []
  | base, r :: rest =>
    if base < M then
      AddResult.added (addedMessage r) (base + 1) (base + 1) r.id
        :: resultsExpected M (base + 1) rest
    else
      AddResult.queueFull (queueFullError M) base :: resultsExpected M base rest

/- ===================== theorems ===================== -/

/-- C1: with at least two registered handlers for an event, one of which
raises, `emit` still evaluates every handler (each one's outcome, raising or
not, appears at its position in the gathered results) and returns normally to
its caller. -/
theorem emit_isolation (st : EventHandlerState) (e : Event)
    (h2 : 2 ≤ (handlersFor st e.type).length)
    (i : Nat) (hi : i < (handlersFor st e.type).length) (msg : String)
    (herr : (handlersFor st e.type).get ⟨i, hi⟩ e = Except.error msg) :
    ∃ st2 results,
      emit st e = Except.ok (st2, results) ∧
      results.length = (handlersFor st e.type).length ∧
      ∀ j (hj : j < (handlersFor st e.type).length),
        results[j]? = some ((handlersFor st e.type).get ⟨j, hj⟩ e) := by
  refine ⟨{ st with eventHistory := emitHistory st.eventHistory e },
    (handlersFor st e.type).map (fun h => h e), ?_, ?_, ?_⟩
  · simp [emit, gather]
  · simp
  · intro j hj
    simp [List.getElem?_eq_getElem hj]

/-- Witness for C1: a GIFT event with a raising and a working subscriber. -/
theorem emit_isolation_witness :
    2 ≤ (handlersFor stC1 evGift.type).length ∧
    (handlersFor stC1 evGift.type).get ⟨0, by decide⟩ evGift = Except.error "boom" ∧
    ∃ st2 results,
      emit stC1 evGift = Except.ok (st2, results) ∧
      results.length = (handlersFor stC1 evGift.type).length ∧
      ∀ j (hj : j < (handlersFor stC1 evGift.type).length),
        results[j]? = some ((handlersFor stC1 evGift.type).get ⟨j, hj⟩ evGift) := by
  refine ⟨by decide, rfl, ?_⟩
  exact emit_isolation stC1 evGift (by decide) 0 (by decide) "boom" rfl

/-- C6: with the per-requester maximum `N = maxRequestsPerUser`, a valid
submission from a requester who already has `N` outstanding requests is
rejected with the quota error and changes nothing, while a valid submission
from a different requester under quota is accepted unaffected. -/
theorem quota_rejects_only_offender (s : MusicQueueState) (r r2 : MusicRequest)
    (hv : validateRequest s r = none)
    (hcap : s.queue.length < s.maxQueueSize)
    (hN : dictGet s.userRequestLimits r.requester 0 = (s.maxRequestsPerUser : Int))
    (hv2 : validateRequest s r2 = none)
    (hdiff : r2.requester ≠ r.requester)
    (hunder : dictGet s.userRequestLimits r2.requester 0 < (s.maxRequestsPerUser : Int)) :
    addRequest s r =
      (AddResult.userLimit (userLimitError s.maxRequestsPerUser)
        (s.maxRequestsPerUser : Int), s) ∧
    (addRequest (addRequest s r).2 r2).1.success = true ∧
    (addRequest (addRequest s r).2 r2).2.queue = s.queue ++ [r2] := by
  have hrej : addRequest s r =
      (AddResult.userLimit (userLimitError s.maxRequestsPerUser)
        (s.maxRequestsPerUser : Int), s) := by
    rw [addRequest, hv]
    simp only [not_le.mpr hcap, ge_iff_le, if_false, hN, le_refl, if_true]
  refine ⟨hrej, ?_, ?_⟩ <;>
  · rw [hrej]
    rw [addRequest, hv2]
    simp only [not_le.mpr hcap, ge_iff_le, if_false, not_le.mpr hunder,
      AddResult.success]

/-- Witness for C6: alice holds 3 of her maximum 3 slots, her 4th request is
rejected with the quota error, bob's request is accepted. -/
theorem quota_rejects_only_offender_witness :
    validateRequest sQuota (mkReq "4" "d" "x" "alice") = none ∧
    dictGet sQuota.userRequestLimits "alice" 0 = (sQuota.maxRequestsPerUser : Int) ∧
    addRequest sQuota (mkReq "4" "d" "x" "alice") =
      (AddResult.userLimit (userLimitError sQuota.maxRequestsPerUser)
        (sQuota.maxRequestsPerUser : Int), sQuota) ∧
    (addRequest (addRequest sQuota (mkReq "4" "d" "x" "alice")).2
        (mkReq "5" "e" "x" "bob")).1.success = true ∧
    (addRequest (addRequest sQuota (mkReq "4" "d" "x" "alice")).2
        (mkReq "5" "e" "x" "bob")).2.queue = sQuota.queue ++ [mkReq "5" "e" "x" "bob"] := by
  refine ⟨by decide, by decide, ?_⟩
  exact quota_rejects_only_offender sQuota (mkReq "4" "d" "x" "alice")
    (mkReq "5" "e" "x" "bob") (by decide) (by decide) (by decide) (by decide)
    (by decide) (by decide)

/-- Counterexample for C8: a request duplicating the queued Song/Artist but
with an over-limit duration is rejected with the duration error, not the
duplicate error. -/
theorem duplicate_error_counterexample :
    (∃ existing ∈ sDup.queue, dupMatch existing rDupLong = true) ∧
    (addRequest sDup rDupLong).1 = AddResult.invalid (durationError 600) ∧
    durationError 600 ≠ duplicateError := by
  refine ⟨⟨mkReq "1" "Song" "Artist" "bob", by decide, by decide⟩, by decide, by decide⟩

/-- C8 (amended): a request that passes the duration, platform and
blocked-keyword checks and duplicates a queued title+artist (case-insensitive)
is rejected with the duplicate error, and the whole queue state is
unchanged. -/
theorem duplicate_rejected_unchanged (s : MusicQueueState) (r : MusicRequest)
    (hdur : r.duration ≤ s.maxDuration)
    (hplat : s.allowedPlatforms.contains r.platform = true)
    (hkw : s.blockedKeywords.any
      (fun kw => strContains (strLower (r.title ++ " " ++ r.artist)) (strLower kw))
      = false)
    (hdup : s.queue.any (fun existing => dupMatch existing r) = true) :
    addRequest s r = (AddResult.invalid duplicateError, s) := by
  have hv : validateRequest s r = some duplicateError := by
    rw [validateRequest]
    simp only [not_lt.mpr hdur, if_false, hplat, Bool.not_true, hkw, hdup, if_true,
      Bool.false_eq_true]
  rw [addRequest, hv]

/-- Witness for C8: an otherwise-valid case-folded duplicate of the queued
Song/Artist is rejected with the duplicate error and nothing changes. -/
theorem duplicate_rejected_unchanged_witness :
    (∃ existing ∈ sDup.queue, dupMatch existing rDupOk = true) ∧
    addRequest sDup rDupOk = (AddResult.invalid duplicateError, sDup) := by
  refine ⟨⟨mkReq "1" "Song" "Artist" "bob", by decide, by decide⟩, ?_⟩
  exact duplicate_rejected_unchanged sDup rDupOk (by decide) (by decide)
    (by decide) (by decide)

/-- Counterexample for C7: `request_tts` enforces no per-user quota and
returns a plain Bool with no queue position; four valid submissions from
alice all succeed, the fourth included. -/
theorem tts_quota_counterexample :
    (requestTtsAll ttsReady "alice"
      ["hello one", "hello two", "hello three", "hello four"]).1
      = [true, true, true, true] ∧
    (requestTtsAll ttsReady "alice"
      ["hello one", "hello two", "hello three", "hello four"]).2.ttsQueue.length
      = 4 := by
  constructor <;> decide

/-- C7 (amended): `request_tts` returns plain Bools (no queue positions) and
applies no per-user quota: every valid submission from one user succeeds while
the queue has room, each appending one request. -/
theorem tts_no_per_user_quota (s : TTSManagerState) (username : String)
    (texts : List String)
    (hen : s.enabled = true) (heng : s.engineAvailable = true)
    (hval : ∀ t ∈ texts, isTextValid s t username = true)
    (hroom : s.ttsQueue.length + texts.length ≤ s.ttsQueueMaxsize) :
    (requestTtsAll s username texts).1 = texts.map (fun _ => true) ∧
    (requestTtsAll s username texts).2.ttsQueue =
      s.ttsQueue ++ texts.map (fun t => ⟨t, username, 2⟩) := by
  induction texts generalizing s with
  | nil => simp [requestTtsAll]
  | cons t rest ih =>
    have hvalid : isTextValid s t username = true := hval t (List.mem_cons_self t rest)
    have hlt : s.ttsQueue.length < s.ttsQueueMaxsize := by
      have := hroom
      simp only [List.length_cons] at this
      omega
    have hstep : requestTts s t username =
        (true, { s with
            statsTotalRequests := s.statsTotalRequests + 1
            ttsQueue := s.ttsQueue ++ [⟨t, username, 2⟩] }) := by
      rw [requestTts, if_neg (by simp [hen, heng]), if_neg (by simp [hvalid]),
        if_pos hlt]
    rw [requestTtsAll, hstep]
    have ihr := ih { s with
        statsTotalRequests := s.statsTotalRequests + 1
        ttsQueue := s.ttsQueue ++ [⟨t, username, 2⟩] }
      hen heng
      (fun x hx => hval x (List.mem_cons_of_mem t hx))
      (by simp only [List.length_append, List.length_singleton]
          simp only [List.length_cons] at hroom
          omega)
    refine ⟨?_, ?_⟩
    · simp only [List.map_cons, ihr.1]
    · simp only [ihr.2, List.map_cons, List.append_assoc, List.cons_append,
        List.nil_append, List.singleton_append]

/-- Witness for C7 (amended): the four concrete submissions from alice. -/
theorem tts_no_per_user_quota_witness :
    (requestTtsAll ttsReady "alice"
      ["hello one", "hello two", "hello three", "hello four"]).1
      = ["hello one", "hello two", "hello three", "hello four"].map
          (fun _ => true) ∧
    (requestTtsAll ttsReady "alice"
      ["hello one", "hello two", "hello three", "hello four"]).2.ttsQueue =
      ttsReady.ttsQueue ++
        ["hello one", "hello two", "hello three", "hello four"].map
          (fun t => ⟨t, "alice", 2⟩) := by
  exact tts_no_per_user_quota ttsReady "alice"
    ["hello one", "hello two", "hello three", "hello four"]
    (by decide) (by decide) (by decide) (by decide)

/-- Updating a key of the cooldown dict rewrites exactly the entries carrying
that key. -/
theorem find?_dictSet_self (d : List (String × Int)) (k : String) (v : Int) :
    ((d.map (fun p => if p.1 == k then (k, v) else p)).find? (fun q => q.1 == k))
      = (d.find? (fun q => q.1 == k)).map (fun _ => (k, v)) := by
  induction d with
  | nil => rfl
  | cons p d ih =>
    cases hb : (p.1 == k) with
    | true =>
      simp only [List.map_cons, hb, if_true, List.find?_cons, beq_self_eq_true]
      rfl
    | false =>
      simp only [List.map_cons, hb, if_false, List.find?_cons, Bool.false_eq_true,
        ih]

/-- Reading back the key just written into the cooldown dict yields the
written instant. -/
theorem dictGet_set_self (d : List (String × Int)) (k : String) (v : Int) :
    dictGet (dictSet d k v) k 0 = v := by
  rw [dictSet, dictMem]
  by_cases h : (d.find? (fun p => p.1 == k)).isSome
  · rw [if_pos h, dictGet, find?_dictSet_self]
    obtain ⟨p, hp⟩ := Option.isSome_iff_exists.mp h
    rw [hp]
    rfl
  · rw [if_neg h, dictGet, List.find?_append,
      Option.not_isSome_iff_eq_none.mp h]
    simp [List.find?]

/-- Counterexample for C9: the follow alert carries cooldown 2 and last fired
at instant 10; a trigger at instant 12 — elapsed time exactly equal to, hence
not exceeding, the cooldown — fires and is counted as played. -/
theorem cooldown_boundary_counterexample :
    (12 : Int) - dictGet sAlerts.cooldowns followAlert.name 0 = followAlert.cooldown ∧
    (triggerAlert sAlerts 12 (fun _ => true) true EventType.FOLLOW {}).1 = true ∧
    (triggerAlert sAlerts 12 (fun _ => true) true
      EventType.FOLLOW {}).2.statsAlertsPlayed = 1 := by
  refine ⟨by decide, by decide, by decide⟩

/-- C9 (amended): for a suitable alert with positive cooldown `c`, a trigger
is blocked — bumping only the cooldown-block counter, everything else
unchanged — exactly when the time since the recorded last firing is below
`c`; once that time is at least `c` the trigger fires, returning the player
outcome, counting a successful play and re-stamping the cooldown. -/
theorem alert_cooldown_gate (s : SoundAlertsState) (now : Int)
    (fe : String → Bool) (play : Bool) (et : EventType) (d : AlertEventData)
    (at2 : AlertType) (alert : SoundAlert)
    (hp : s.playerAvailable = true)
    (hm : mapEventToAlert et = some at2)
    (hfind : findSuitableAlert fe (alertsGet s.alerts at2) d = some alert)
    (hcpos : 0 < alert.cooldown) :
    (now - dictGet s.cooldowns alert.name 0 < alert.cooldown →
      triggerAlert s now fe play et d =
        (false, { s with statsCooldownBlocks := s.statsCooldownBlocks + 1 })) ∧
    (alert.cooldown ≤ now - dictGet s.cooldowns alert.name 0 →
      (triggerAlert s now fe play et d).1 = play ∧
      (play = true →
        (triggerAlert s now fe play et d).2.statsAlertsPlayed
          = s.statsAlertsPlayed + 1 ∧
        dictGet (triggerAlert s now fe play et d).2.cooldowns alert.name 0 = now)) := by
  have hne : (alertsGet s.alerts at2).isEmpty = false := by
    cases hAG : alertsGet s.alerts at2 with
    | nil => rw [hAG] at hfind; simp [findSuitableAlert] at hfind
    | cons a l => simp
  constructor
  · intro hcool
    have hic : isInCooldown s now alert = true := by
      rw [isInCooldown, if_neg (by omega)]
      simp [hcool]
    simp only [triggerAlert, hp, Bool.not_true, Bool.false_eq_true, if_false,
      hm, hne, hfind, hic, if_true]
  · intro hge
    have hic : isInCooldown s now alert = false := by
      rw [isInCooldown, if_neg (by omega)]
      simp [not_lt.mpr hge]
    have hred : triggerAlert s now fe play et d =
        (play,
          { (if play then
              setCooldown { s with statsAlertsPlayed := s.statsAlertsPlayed + 1 }
                now alert
            else { s with statsAlertsSkipped := s.statsAlertsSkipped + 1 }) with
            statsTotalAlerts :=
              (if play then
                setCooldown { s with statsAlertsPlayed := s.statsAlertsPlayed + 1 }
                  now alert
              else
                { s with
                    statsAlertsSkipped := s.statsAlertsSkipped + 1 }).statsTotalAlerts
                + 1 }) := by
      simp only [triggerAlert, hp, Bool.not_true, Bool.false_eq_true, if_false,
        hm, hne, hfind, hic]
    refine ⟨by rw [hred], ?_⟩
    intro hplay
    subst hplay
    rw [hred]
    simp only [if_true, setCooldown, if_pos hcpos]
    exact ⟨trivial, dictGet_set_self s.cooldowns alert.name now⟩

/-- Witness for C9 (amended): the concrete follow alert, blocked at instant
11 and fired at instant 12. -/
theorem alert_cooldown_gate_witness :
    ((11 : Int) - dictGet sAlerts.cooldowns followAlert.name 0 < followAlert.cooldown →
      triggerAlert sAlerts 11 (fun _ => true) true EventType.FOLLOW {} =
        (false,
          { sAlerts with statsCooldownBlocks := sAlerts.statsCooldownBlocks + 1 })) ∧
    ((11 : Int) - dictGet sAlerts.cooldowns followAlert.name 0 < followAlert.cooldown) ∧
    (followAlert.cooldown ≤ (12 : Int) - dictGet sAlerts.cooldowns followAlert.name 0 →
      (triggerAlert sAlerts 12 (fun _ => true) true EventType.FOLLOW {}).1 = true ∧
      (true = true →
        (triggerAlert sAlerts 12 (fun _ => true) true
          EventType.FOLLOW {}).2.statsAlertsPlayed = sAlerts.statsAlertsPlayed + 1 ∧
        dictGet (triggerAlert sAlerts 12 (fun _ => true) true
          EventType.FOLLOW {}).2.cooldowns followAlert.name 0 = 12)) := by
  refine ⟨?_, by decide, ?_⟩
  · exact (alert_cooldown_gate sAlerts 11 (fun _ => true) true EventType.FOLLOW {}
      AlertType.FOLLOW followAlert (by decide) (by decide) (by decide) (by decide)).1
  · exact (alert_cooldown_gate sAlerts 12 (fun _ => true) true EventType.FOLLOW {}
      AlertType.FOLLOW followAlert (by decide) (by decide) (by decide) (by decide)).2

/-- Counterexample for C4: the comment starts with the registered command
`!hello` and contains the auto-response keyword `hello`, with both features
enabled, yet because it also matches the enabled spam filter the pipeline
emits only SPAM_DETECTED — no COMMAND event fires. -/
theorem command_exclusivity_counterexample :
    isSpam cfgSpam evSpammyCommand.comment = true ∧
    strLower (firstToken evSpammyCommand.comment) = "!hello" ∧
    dictGetS cfgSpam.commands "!hello" = some "hi" ∧
    cfgSpam.features.commandProcessing = true ∧
    cfgSpam.features.autoResponse = true ∧
    strContains (strLower evSpammyCommand.comment) (strLower "hello") = true ∧
    (handleComment cfgSpam {} none "" (fun l => l.headD "") none
      evSpammyCommand).1 = [EmittedEvent.spamDetected "user" "!hello buy"] := by
  refine ⟨by decide, by decide, by decide, by decide, by decide, by decide,
    by decide⟩

/-- C4 (amended): for a comment that passes the spam filter, starts with a
registered command (command processing enabled) and contains an auto-response
keyword (auto-response enabled), exactly the command path fires: the emitted
events are one COMMAND and no AUTO_RESPONSE. -/
theorem command_excludes_autoresponse
    (cfg : BotConfigM) (stats : BotStats) (startTime : Option Nat)
    (formatRuntime : String) (pick : List String → String)
    (tts : Option TTSManagerState) (e : CommentEv)
    (hspam : isSpam cfg e.comment = false)
    (hbang : strStartsWith e.comment "!" = true)
    (hcp : cfg.features.commandProcessing = true)
    (har : cfg.features.autoResponse = true)
    (resp : String)
    (hcmd : dictGetS cfg.commands (strLower (firstToken e.comment)) = some resp)
    (kw : String × List String) (hkw : kw ∈ cfg.autoResponses)
    (hmatch : strContains (strLower e.comment) (strLower kw.1) = true) :
    (∃ r, (handleComment cfg stats startTime formatRuntime pick tts e).1
        = [EmittedEvent.command e.username (strLower (firstToken e.comment)) r]) ∧
    ∀ u k r2, EmittedEvent.autoResponse u k r2 ∉
      (handleComment cfg stats startTime formatRuntime pick tts e).1 := by
  have hmain : ∃ r, (handleComment cfg stats startTime formatRuntime pick tts e).1
      = [EmittedEvent.command e.username (strLower (firstToken e.comment)) r] := by
    simp only [handleComment, hspam, Bool.false_eq_true, if_false, hbang, hcp,
      Bool.and_self, if_true, processCommand, hcmd]
    exact ⟨_, rfl⟩
  obtain ⟨r, hr⟩ := hmain
  refine ⟨⟨r, hr⟩, ?_⟩
  intro u k r2
  rw [hr]
  intro hmem
  rcases List.mem_singleton.mp hmem with h
  exact EmittedEvent.noConfusion h

/-- Witness for C4 (amended): the clean `!hello world` comment fires exactly
the command path. -/
theorem command_excludes_autoresponse_witness :
    isSpam cfgClean evCleanCommand.comment = false ∧
    dictGetS cfgClean.commands (strLower (firstToken evCleanCommand.comment))
      = some "hi" ∧
    ("hello", ["hey"]) ∈ cfgClean.autoResponses ∧
    strContains (strLower evCleanCommand.comment) (strLower "hello") = true ∧
    (∃ r, (handleComment cfgClean {} none "" (fun l => l.headD "") none
        evCleanCommand).1
      = [EmittedEvent.command evCleanCommand.username
          (strLower (firstToken evCleanCommand.comment)) r]) ∧
    ∀ u k r2, EmittedEvent.autoResponse u k r2 ∉
      (handleComment cfgClean {} none "" (fun l => l.headD "") none
        evCleanCommand).1 := by
  refine ⟨by decide, by decide, by decide, by decide, ?_⟩
  exact command_excludes_autoresponse cfgClean {} none "" (fun l => l.headD "")
    none evCleanCommand (by decide) (by decide) (by decide) (by decide) "hi"
    (by decide) ("hello", ["hey"]) (by decide) (by decide)

/-- `emit` always returns `ok` and its state effect is exactly the history
update, so a run of emits folds `emitHistory` over the buffer. -/
theorem emitAll_eventHistory (es : List Event) (st : EventHandlerState) :
    (emitAll st es).eventHistory = es.foldl emitHistory st.eventHistory := by
  induction es generalizing st with
  | nil => rfl
  | cons e es ih =>
    have hstep : emit st e =
        Except.ok ({ st with eventHistory := emitHistory st.eventHistory e },
          (handlersFor st e.type).map (fun h => h e)) := by
      simp [emit, gather]
    simp only [emitAll, List.foldl_cons, hstep]
    simpa [emitAll] using ih { st with eventHistory := emitHistory st.eventHistory e }

/-- Folding the bounded-history update keeps exactly the last `maxHistory`
entries of the full emission sequence. -/
theorem foldl_emitHistory (es : List Event) : ∀ h : List Event,
    h.length ≤ maxHistory →
    es.foldl emitHistory h = (h ++ es).drop (h.length + es.length - maxHistory) := by
  induction es with
  | nil =>
    intro h hle
    simp [Nat.sub_eq_zero_of_le hle]
  | cons e es ih =>
    intro h hle
    rw [List.foldl_cons]
    by_cases hlt : h.length < maxHistory
    · have hlen : (h ++ [e]).length = h.length + 1 := by
        simp
      have hred : emitHistory h e = h ++ [e] := by
        rw [emitHistory]
        have hc : ¬ (h ++ [e]).length > maxHistory := by
          rw [hlen]
          omega
        rw [if_neg hc]
      have hle2 : (h ++ [e]).length ≤ maxHistory := by
        rw [hlen]
        omega
      rw [hred, ih (h ++ [e]) hle2]
      have hidx : (h ++ [e]).length + es.length - maxHistory
          = h.length + (e :: es).length - maxHistory := by
        rw [hlen]
        simp only [List.length_cons]
        omega
      rw [hidx, List.append_assoc, List.singleton_append]
    · have heq : h.length = maxHistory := le_antisymm hle (not_lt.mp hlt)
      cases h with
      | nil => simp [maxHistory] at heq
      | cons hd tl =>
        have htl : tl.length + 1 = maxHistory := by
          simpa using heq
        have hred : emitHistory (hd :: tl) e = tl ++ [e] := by
          rw [emitHistory]
          have hc : ((hd :: tl) ++ [e]).length > maxHistory := by
            simp only [List.cons_append, List.length_cons, List.length_append]
            omega
          rw [if_pos hc]
          rfl
        have hle2 : (tl ++ [e]).length ≤ maxHistory := by
          simp only [List.length_append, List.length_cons, List.length_nil]
          omega
        rw [hred, ih (tl ++ [e]) hle2]
        have hidx1 : (tl ++ [e]).length + es.length - maxHistory = es.length := by
          simp only [List.length_append, List.length_cons, List.length_nil]
          omega
        have hidx2 : (hd :: tl).length + (e :: es).length - maxHistory
            = es.length + 1 := by
          simp only [List.length_cons]
          omega
        rw [hidx1, hidx2, List.append_assoc, List.singleton_append,
          List.cons_append, List.drop_succ_cons]

/-- Every `get_event_history` result is drawn from the stored buffer. -/
theorem getEventHistory_subset (hist : List Event) (t : Option EventType)
    (l : Nat) : ∀ e ∈ getEventHistory hist t l, e ∈ hist := by
  intro e he
  cases t with
  | none =>
    simp only [getEventHistory] at he
    by_cases hl : l ≠ 0
    · rw [if_pos hl] at he
      exact List.drop_subset _ _ he
    · rw [if_neg hl] at he
      exact he
  | some tt =>
    simp only [getEventHistory] at he
    by_cases hl : l ≠ 0
    · rw [if_pos hl] at he
      exact List.mem_of_mem_filter (List.drop_subset _ _ he)
    · rw [if_neg hl] at he
      exact List.mem_of_mem_filter he

/-- C2: after more than `maxHistory` emit calls on a fresh `EventHandler`, the
buffer holds exactly the most recent 1000 events in emission order (oldest
evicted first), `get_event_history` with limit 1000 returns exactly them, and
no earlier event is retrievable through any `get_event_history` call. -/
theorem eventHistory_bound (st0 : EventHandlerState) (es : List Event)
    (h0 : st0.eventHistory = []) (hK : es.length > maxHistory) :
    historyBoundClaim st0 es := by
  have hhist : (emitAll st0 es).eventHistory = es.drop (es.length - maxHistory) := by
    rw [emitAll_eventHistory, h0,
      foldl_emitHistory es [] (by simp [maxHistory])]
    simp
  refine ⟨hhist, ?_, ?_⟩
  · rw [hhist]
    simp only [getEventHistory]
    have hlen : (es.drop (es.length - maxHistory)).length = maxHistory := by
      rw [List.length_drop]
      omega
    have hnz : maxHistory ≠ 0 := by
      rw [maxHistory]
      omega
    rw [if_pos hnz, hlen, Nat.sub_self, List.drop_zero]
  · intro t l e hmem
    rw [hhist] at hmem
    exact getEventHistory_subset _ t l e hmem

/-- Witness for C2: 1001 emissions of a concrete event. -/
theorem eventHistory_bound_witness :
    stC1.eventHistory = [] ∧
    (List.replicate 1001 evPing).length > maxHistory ∧
    historyBoundClaim stC1 (List.replicate 1001 evPing) := by
  have hlen : (List.replicate 1001 evPing).length > maxHistory := by
    rw [List.length_replicate]
    decide
  exact ⟨rfl, hlen, eventHistory_bound stC1 (List.replicate 1001 evPing) rfl hlen⟩

/-- A batch of valid, pairwise non-duplicate requests from pairwise distinct
requesters submitted to the state reached after accepting `p` produces
exactly the expected results: acceptances while room remains, capacity
rejections after. -/
theorem addAll_stateAfter (M maxDur : Nat) : ∀ (rs p : List MusicRequest),
    (∀ r ∈ rs, r.duration ≤ maxDur ∧
      (["spotify", "youtube"] : List String).contains r.platform = true) →
    (∀ r ∈ rs, ∀ x ∈ p, dupMatch x r = false) →
    rs.Pairwise (fun a b => dupMatch a b = false) →
    (∀ r ∈ rs, ∀ x ∈ p, x.requester ≠ r.requester) →
    rs.Pairwise (fun a b => a.requester ≠ b.requester) →
    (addAll (stateAfter M maxDur p) rs).1 = resultsExpected M p.length rs := by
  intro rs
  induction rs with
  | nil => intro p _ _ _ _ _; rfl
  | cons r rest ih =>
    intro p hval hdupP hdup hreqP hreq
    have hvr : validateRequest (stateAfter M maxDur p) r = none := by
      rw [validateRequest]
      have h1 : ¬ r.duration > (stateAfter M maxDur p).maxDuration := by
        have := (hval r (List.mem_cons_self r rest)).1
        simp only [stateAfter, musicQueueInit]
        omega
      rw [if_neg h1]
      have h2 : ((stateAfter M maxDur p).allowedPlatforms.contains r.platform)
          = true := (hval r (List.mem_cons_self r rest)).2
      rw [h2]
      have h3 : ((stateAfter M maxDur p).blockedKeywords.any
          (fun kw => strContains (strLower (r.title ++ " " ++ r.artist))
            (strLower kw))) = false := rfl
      rw [h3]
      have h4 : ((stateAfter M maxDur p).queue.any
          (fun existing => dupMatch existing r)) = false := by
        rw [List.any_eq_false]
        intro x hx
        simp only [Bool.not_eq_true]
        exact hdupP r (List.mem_cons_self r rest) x hx
      rw [h4]
      rfl
    have hfind : ((stateAfter M maxDur p).userRequestLimits.find?
        (fun q => q.1 == r.requester)) = none := by
      rw [List.find?_eq_none]
      intro x hx
      simp only [stateAfter, List.mem_map] at hx
      obtain ⟨y, hy, rfl⟩ := hx
      simp only [Bool.not_eq_true, beq_eq_false_iff_ne, ne_eq]
      exact hreqP r (List.mem_cons_self r rest) y hy
    by_cases hb : p.length < M
    · have hq : ¬ ((stateAfter M maxDur p).queue.length ≥
          (stateAfter M maxDur p).maxQueueSize) := by
        simp only [stateAfter, musicQueueInit]
        omega
      have hget : dictGet (stateAfter M maxDur p).userRequestLimits r.requester 0
          = 0 := by
        rw [dictGet, hfind]
      have hmem : dictMem (stateAfter M maxDur p).userRequestLimits r.requester
          = false := by
        rw [dictMem, hfind]
        rfl
      have hlim : ¬ ((0 : Int) ≥
          ((stateAfter M maxDur p).maxRequestsPerUser : Int)) := by
        simp only [stateAfter, musicQueueInit]
        omega
      have hset : dictSet (stateAfter M maxDur p).userRequestLimits r.requester
          ((0 : Int) + 1) = (p ++ [r]).map (fun x => (x.requester, (1 : Int))) := by
        rw [dictSet, hmem]
        simp only [Bool.false_eq_true, if_false, stateAfter, List.map_append,
          List.map_cons, List.map_nil]
        norm_num
      have hstep : addRequest (stateAfter M maxDur p) r =
          (AddResult.added (addedMessage r) (p.length + 1) (p.length + 1) r.id,
            stateAfter M maxDur (p ++ [r])) := by
        simp only [addRequest, hvr]
        rw [if_neg hq, hget, if_neg hlim, hset]
        simp only [stateAfter, musicQueueInit, List.length_append,
          List.length_cons, List.length_nil]
      rw [addAll]
      simp only [hstep]
      have ihr := ih (p ++ [r])
        (fun x hx => hval x (List.mem_cons_of_mem r hx))
        (by
          intro x hx y hy
          rcases List.mem_append.mp hy with hy1 | hy2
          · exact hdupP x (List.mem_cons_of_mem r hx) y hy1
          · rw [List.mem_singleton.mp hy2]
            exact (List.pairwise_cons.mp hdup).1 x hx)
        (List.pairwise_cons.mp hdup).2
        (by
          intro x hx y hy
          rcases List.mem_append.mp hy with hy1 | hy2
          · exact hreqP x (List.mem_cons_of_mem r hx) y hy1
          · rw [List.mem_singleton.mp hy2]
            exact (List.pairwise_cons.mp hreq).1 x hx)
        (List.pairwise_cons.mp hreq).2
      rw [resultsExpected, if_pos hb]
      simp only [List.length_append, List.length_cons, List.length_nil] at ihr
      rw [ihr]
    · have hq : (stateAfter M maxDur p).queue.length ≥
          (stateAfter M maxDur p).maxQueueSize := by
        simp only [stateAfter, musicQueueInit]
        omega
      have hstep : addRequest (stateAfter M maxDur p) r =
          (AddResult.queueFull (queueFullError M) p.length,
            stateAfter M maxDur p) := by
        simp only [addRequest, hvr]
        rw [if_pos hq]
        simp only [stateAfter, musicQueueInit]
      rw [addAll]
      simp only [hstep]
      have ihr := ih p
        (fun x hx => hval x (List.mem_cons_of_mem r hx))
        (fun x hx y hy => hdupP x (List.mem_cons_of_mem r hx) y hy)
        (List.pairwise_cons.mp hdup).2
        (fun x hx y hy => hreqP x (List.mem_cons_of_mem r hx) y hy)
        (List.pairwise_cons.mp hreq).2
      rw [resultsExpected, if_neg hb, ihr]

/-- One expected result per submitted request. -/
theorem resultsExpected_length (M : Nat) : ∀ (rs : List MusicRequest) (base : Nat),
    (resultsExpected M base rs).length = rs.length := by
  intro rs
  induction rs with
  | nil => intro base; rfl
  | cons r rest ih =>
    intro base
    rw [resultsExpected]
    by_cases hb : base < M
    · rw [if_pos hb]
      simp [ih]
    · rw [if_neg hb]
      simp [ih]

/-- Expected results are acceptances while the queue has room. -/
theorem resultsExpected_getD_success (M : Nat) :
    ∀ (rs : List MusicRequest) (base i : Nat), base + i < M → i < rs.length →
    ((resultsExpected M base rs).getD i (AddResult.invalid "")).success = true := by
  intro rs
  induction rs with
  | nil =>
    intro base i _ hi
    simp at hi
  | cons r rest ih =>
    intro base i hlt hi
    rw [resultsExpected, if_pos (by omega)]
    cases i with
    | zero => rfl
    | succ j =>
      rw [List.getD_cons_succ]
      exact ih (base + 1) j (by omega) (by simpa using hi)

/-- The first expected result past capacity is the capacity rejection with the
recorded queue size equal to the capacity. -/
theorem resultsExpected_getD_full (M : Nat) :
    ∀ (rs : List MusicRequest) (base i : Nat), base + i = M → i < rs.length →
    (resultsExpected M base rs).getD i (AddResult.invalid "")
      = AddResult.queueFull (queueFullError M) M := by
  intro rs
  induction rs with
  | nil =>
    intro base i _ hi
    simp at hi
  | cons r rest ih =>
    intro base i heq hi
    cases i with
    | zero =>
      rw [resultsExpected, if_neg (by omega), List.getD_cons_zero]
      have hbase : base = M := by omega
      rw [hbase]
    | succ j =>
      rw [resultsExpected, if_pos (by omega), List.getD_cons_succ]
      exact ih (base + 1) j (by omega) (by simpa using hi)

/-- The scan loop of `remove_request` removes exactly one element when it
reports a removal. -/
theorem scanRemove_removed_length :
    ∀ (q : List MusicRequest) (rid : String) (u : Option String)
      (r : MusicRequest) (rest : List MusicRequest),
    scanRemove q rid u = RemoveScan.removed r rest → rest.length + 1 = q.length := by
  intro q
  induction q with
  | nil =>
    intro rid u r rest h
    simp [scanRemove] at h
  | cons x xs ih =>
    intro rid u r rest h
    simp only [scanRemove] at h
    by_cases hx : (x.id == rid) = true
    · rw [if_pos hx] at h
      cases u with
      | some uu =>
        simp only [] at h
        by_cases hne : (x.requester != uu) = true
        · rw [if_pos hne] at h
          exact absurd h (by simp)
        · rw [if_neg hne] at h
          injection h with h1 h2
          rw [← h2]
          simp
      | none =>
        simp only [] at h
        injection h with h1 h2
        rw [← h2]
        simp
    · rw [if_neg hx] at h
      cases hs : scanRemove xs rid u with
      | notFound =>
        rw [hs] at h
        exact absurd h (by simp)
      | forbidden =>
        rw [hs] at h
        exact absurd h (by simp)
      | removed r2 rest2 =>
        rw [hs] at h
        injection h with h1 h2
        rw [← h2]
        have := ih rid u r2 rest2 hs
        simp only [List.length_cons]
        omega

/-- No single queue operation pushes the stored queue past its configured
maximum size. -/
theorem applyOp_queue_bound : queueNeverExceeds := by
  intro s op h
  cases op with
  | add r =>
    simp only [applyOp]
    cases hv : validateRequest s r with
    | some err =>
      simp only [addRequest, hv]
      exact h
    | none =>
      simp only [addRequest, hv]
      by_cases hq : s.queue.length ≥ s.maxQueueSize
      · rw [if_pos hq]
        exact h
      · rw [if_neg hq]
        by_cases hu : dictGet s.userRequestLimits r.requester 0 ≥
            (s.maxRequestsPerUser : Int)
        · rw [if_pos hu]
          exact h
        · rw [if_neg hu]
          simp only [List.length_append, List.length_cons, List.length_nil]
          omega
  | next =>
    simp only [applyOp, getNextRequest]
    cases hq : s.queue with
    | nil => exact h
    | cons hd tl =>
      have hlen : tl.length ≤ s.maxQueueSize := by
        rw [hq] at h
        simp only [List.length_cons] at h
        omega
      cases hc : s.currentRequest with
      | some cur =>
        simp only [hc]
        exact hlen
      | none =>
        simp only [hc]
        exact hlen
  | skip reason =>
    simp only [applyOp, skipCurrent]
    cases hc : s.currentRequest with
    | none => exact h
    | some cur =>
      simp only [hc]
      exact h
  | remove rid u =>
    simp only [applyOp, removeRequest]
    cases hs : scanRemove s.queue rid u with
    | notFound => exact h
    | forbidden => exact h
    | removed r rest =>
      simp only [hs]
      have := scanRemove_removed_length s.queue rid u r rest hs
      omega
  | clear b =>
    simp only [applyOp, clearQueue]
    cases b with
    | false => exact h
    | true =>
      simp only [Bool.not_true, Bool.false_eq_true, if_false]
      simp

/-- C3: submitting `M+1` valid, pairwise distinct requests from distinct
requesters (all under quota) to a fresh queue of capacity `M` yields exactly
`M` acceptances followed by one capacity rejection, and no operation ever
pushes the stored queue past its maximum size. -/
theorem queue_capacity (M maxDur : Nat) (rs : List MusicRequest)
    (hlen : rs.length = M + 1)
    (hval : ∀ r ∈ rs, r.duration ≤ maxDur ∧
      (["spotify", "youtube"] : List String).contains r.platform = true)
    (hdup : rs.Pairwise (fun a b => dupMatch a b = false))
    (hreq : rs.Pairwise (fun a b => a.requester ≠ b.requester)) :
    capacityClaim M maxDur rs ∧ queueNeverExceeds := by
  have h0 : stateAfter M maxDur [] = musicQueueInit M maxDur := rfl
  have hres : (addAll (musicQueueInit M maxDur) rs).1 = resultsExpected M 0 rs := by
    have hrun := addAll_stateAfter M maxDur rs [] hval
      (by intro r hr x hx; simp at hx) hdup
      (by intro r hr x hx; simp at hx) hreq
    rw [h0] at hrun
    exact hrun
  refine ⟨⟨?_, ?_, ?_⟩, applyOp_queue_bound⟩
  · rw [hres, resultsExpected_length]
  · intro i hi
    rw [hres]
    exact resultsExpected_getD_success M rs 0 i (by omega) (by omega)
  · rw [hres]
    exact resultsExpected_getD_full M rs 0 M (by omega) (by omega)

/-- Witness for C3: three distinct requests from distinct requesters against
capacity 2. -/
theorem queue_capacity_witness :
    ([mkReq "1" "a" "x" "u1", mkReq "2" "b" "y" "u2",
      mkReq "3" "c" "z" "u3"] : List MusicRequest).length = 2 + 1 ∧
    (capacityClaim 2 600
      [mkReq "1" "a" "x" "u1", mkReq "2" "b" "y" "u2", mkReq "3" "c" "z" "u3"] ∧
      queueNeverExceeds) := by
  refine ⟨by decide, ?_⟩
  exact queue_capacity 2 600
    [mkReq "1" "a" "x" "u1", mkReq "2" "b" "y" "u2", mkReq "3" "c" "z" "u3"]
    (by decide) (by decide) (by decide) (by decide)

/-- Lifecycle reachability is reflexive. -/
theorem statusReach_refl (a : RequestStatus) : statusReach a a = true := by
  cases a <;> rfl

/-- Lifecycle reachability is transitive. -/
theorem statusReach_trans (a b c : RequestStatus) (hab : statusReach a b = true)
    (hbc : statusReach b c = true) : statusReach a c = true := by
  revert hab hbc
  cases a <;> cases b <;> cases c <;> decide

/-- Everything is reachable from pending. -/
theorem statusReach_pending (b : RequestStatus) :
    statusReach RequestStatus.pending b = true := rfl

/-- Requests in the queue advance at most from pending to playing and from
playing to a terminal status. -/
theorem mem_requestsOf (s : MusicQueueState) (r : MusicRequest) :
    r ∈ requestsOf s ↔
      r ∈ s.queue ∨ s.currentRequest = some r ∨ r ∈ s.history := by
  rw [requestsOf]
  cases hc : s.currentRequest with
  | none => simp
  | some c => simp [eq_comm]

/-- Under distinct ids, two held requests with the same id coincide. -/
theorem eq_of_same_id {s : MusicQueueState} (hnd : idsNodup s)
    {r x : MusicRequest} (hr : r ∈ requestsOf s) (hx : x ∈ requestsOf s)
    (hid : r.id = x.id) : r = x :=
  List.inj_on_of_nodup_map hnd hr hx hid

/-- The removal scan splits the queue around the removed request. -/
theorem scanRemove_removed_decomp :
    ∀ (q : List MusicRequest) (rid : String) (u : Option String)
      (r : MusicRequest) (rest : List MusicRequest),
    scanRemove q rid u = RemoveScan.removed r rest →
    ∃ l1 l2, q = l1 ++ r :: l2 ∧ rest = l1 ++ l2 := by
  intro q
  induction q with
  | nil =>
    intro rid u r rest h
    simp [scanRemove] at h
  | cons x xs ih =>
    intro rid u r rest h
    simp only [scanRemove] at h
    by_cases hx : (x.id == rid) = true
    · rw [if_pos hx] at h
      cases u with
      | some uu =>
        simp only [] at h
        by_cases hne : (x.requester != uu) = true
        · rw [if_pos hne] at h
          exact absurd h (by simp)
        · rw [if_neg hne] at h
          injection h with h1 h2
          exact ⟨[], xs, by rw [h1]; rfl, h2.symm⟩
      | none =>
        simp only [] at h
        injection h with h1 h2
        exact ⟨[], xs, by rw [h1]; rfl, h2.symm⟩
    · rw [if_neg hx] at h
      cases hs : scanRemove xs rid u with
      | notFound =>
        rw [hs] at h
        exact absurd h (by simp)
      | forbidden =>
        rw [hs] at h
        exact absurd h (by simp)
      | removed r2 rest2 =>
        rw [hs] at h
        injection h with h1 h2
        obtain ⟨l1, l2, hq, hrest⟩ := ih rid u r2 rest2 hs
        refine ⟨x :: l1, l2, ?_, ?_⟩
        · rw [hq, h1]
          rfl
        · rw [← h2, hrest]
          rfl

/-- Field-level description of every state transition a `MusicQueue`
operation can make: unchanged, append a fresh pending request, start the next
song (with or without a finishing current song), skip the current song,
remove one queued request, or clear the queue. -/
theorem applyOp_shape (s : MusicQueueState) (op : QueueOp) (hok : OpOk s op) :
    applyOp s op = s ∨
    (∃ r0, op = QueueOp.add r0 ∧ r0.status = RequestStatus.pending ∧
      (∀ x ∈ requestsOf s, x.id ≠ r0.id) ∧
      (applyOp s op).queue = s.queue ++ [r0] ∧
      (applyOp s op).currentRequest = s.currentRequest ∧
      (applyOp s op).history = s.history) ∨
    (∃ hd tl, s.queue = hd :: tl ∧
      (applyOp s op).queue = tl ∧
      (applyOp s op).currentRequest
        = some { hd with status := RequestStatus.playing } ∧
      ((s.currentRequest = none ∧ (applyOp s op).history = s.history) ∨
       (∃ c, s.currentRequest = some c ∧
        (applyOp s op).history
          = s.history ++ [{ c with status := RequestStatus.completed }]))) ∨
    (∃ c, s.currentRequest = some c ∧
      (applyOp s op).queue = s.queue ∧
      (applyOp s op).currentRequest = none ∧
      (applyOp s op).history
        = s.history ++ [{ c with status := RequestStatus.skipped }]) ∨
    (∃ q l1 l2, s.queue = l1 ++ q :: l2 ∧
      (applyOp s op).queue = l1 ++ l2 ∧
      (applyOp s op).currentRequest = s.currentRequest ∧
      (applyOp s op).history = s.history) ∨
    ((applyOp s op).queue = [] ∧
      (applyOp s op).currentRequest = s.currentRequest ∧
      (applyOp s op).history = s.history) := by
  cases op with
  | add r0 =>
    cases hv : validateRequest s r0 with
    | some err =>
      left
      simp [applyOp, addRequest, hv]
    | none =>
      by_cases hq : s.queue.length ≥ s.maxQueueSize
      · left
        simp [applyOp, addRequest, hv, hq]
      · by_cases hu : dictGet s.userRequestLimits r0.requester 0 ≥
            (s.maxRequestsPerUser : Int)
        · left
          simp only [applyOp, addRequest, hv]
          rw [if_neg hq, if_pos hu]
        · right; left
          refine ⟨r0, rfl, hok.1, hok.2, ?_, ?_, ?_⟩ <;>
          · simp only [applyOp, addRequest, hv]
            rw [if_neg hq, if_neg hu]
  | next =>
    cases hq : s.queue with
    | nil =>
      left
      simp [applyOp, getNextRequest, hq]
    | cons hd tl =>
      right; right; left
      refine ⟨hd, tl, rfl, ?_⟩
      cases hc : s.currentRequest with
      | none =>
        simp [applyOp, getNextRequest, hq, hc]
      | some c =>
        simp [applyOp, getNextRequest, hq, hc]
  | skip reason =>
    cases hc : s.currentRequest with
    | none =>
      left
      simp [applyOp, skipCurrent, hc]
    | some c =>
      right; right; right; left
      refine ⟨c, rfl, ?_, ?_, ?_⟩ <;> simp only [applyOp, skipCurrent, hc]
  | remove rid u =>
    cases hs : scanRemove s.queue rid u with
    | notFound =>
      left
      simp [applyOp, removeRequest, hs]
    | forbidden =>
      left
      simp [applyOp, removeRequest, hs]
    | removed q rest =>
      right; right; right; right; left
      obtain ⟨l1, l2, hqd, hrest⟩ := scanRemove_removed_decomp s.queue rid u q rest hs
      refine ⟨q, l1, l2, hqd, ?_, ?_, ?_⟩ <;>
        simp only [applyOp, removeRequest, hs, hrest]
  | clear b =>
    cases b with
    | false =>
      left
      simp [applyOp, clearQueue]
    | true =>
      right; right; right; right; right
      refine ⟨?_, ?_, ?_⟩ <;> simp [applyOp, clearQueue]

/-- `requestsOf` through `Option.toList`. -/
theorem requestsOf_eq (s : MusicQueueState) :
    requestsOf s = s.queue ++ s.currentRequest.toList ++ s.history := by
  rw [requestsOf]
  cases s.currentRequest <;> rfl

/-- Every `MusicQueue` operation preserves status well-formedness. -/
theorem stepWF (s : MusicQueueState) (op : QueueOp) (hWF : WF s)
    (hok : OpOk s op) : WF (applyOp s op) := by
  obtain ⟨hq, hc, hh⟩ := hWF
  rcases applyOp_shape s op hok with heq |
    ⟨r0, hop, hst, hfresh, hq', hc', hh'⟩ |
    ⟨hd, tl, hqeq, hq', hc', hrest⟩ |
    ⟨c, hceq, hq', hc', hh'⟩ |
    ⟨q, l1, l2, hqeq, hq', hc', hh'⟩ |
    ⟨hq', hc', hh'⟩
  · rw [heq]
    exact ⟨hq, hc, hh⟩
  · refine ⟨?_, ?_, ?_⟩
    · rw [hq']
      intro r hr
      rcases List.mem_append.mp hr with h1 | h2
      · exact hq r h1
      · rw [List.mem_singleton.mp h2]
        exact hst
    · rw [hc']
      exact hc
    · rw [hh']
      exact hh
  · refine ⟨?_, ?_, ?_⟩
    · rw [hq']
      intro r hr
      exact hq r (by rw [hqeq]; exact List.mem_cons_of_mem hd hr)
    · rw [hc']
      intro r hr
      injection hr with h1
      rw [← h1]
    · rcases hrest with ⟨hcnone, hh'⟩ | ⟨c, hceq, hh'⟩
      · rw [hh']
        exact hh
      · rw [hh']
        intro r hr
        rcases List.mem_append.mp hr with h1 | h2
        · exact hh r h1
        · rw [List.mem_singleton.mp h2]
          left
          rfl
  · refine ⟨?_, ?_, ?_⟩
    · rw [hq']
      exact hq
    · rw [hc']
      intro r hr
      exact absurd hr (by simp)
    · rw [hh']
      intro r hr
      rcases List.mem_append.mp hr with h1 | h2
      · exact hh r h1
      · rw [List.mem_singleton.mp h2]
        right
        left
        rfl
  · refine ⟨?_, ?_, ?_⟩
    · rw [hq']
      intro r hr
      refine hq r ?_
      rw [hqeq]
      rcases List.mem_append.mp hr with h1 | h2
      · exact List.mem_append.mpr (Or.inl h1)
      · exact List.mem_append.mpr (Or.inr (List.mem_cons_of_mem q h2))
    · rw [hc']
      exact hc
    · rw [hh']
      exact hh
  · refine ⟨?_, ?_, ?_⟩
    · rw [hq']
      intro r hr
      exact absurd hr (by simp)
    · rw [hc']
      exact hc
    · rw [hh']
      exact hh

/-- Every `MusicQueue` operation keeps the held request ids pairwise
distinct (an added request carries a fresh id). -/
theorem stepNodup (s : MusicQueueState) (op : QueueOp) (hnd : idsNodup s)
    (hok : OpOk s op) : idsNodup (applyOp s op) := by
  rcases applyOp_shape s op hok with heq |
    ⟨r0, hop, hst, hfresh, hq', hc', hh'⟩ |
    ⟨hd, tl, hqeq, hq', hc', hrest⟩ |
    ⟨c, hceq, hq', hc', hh'⟩ |
    ⟨q, l1, l2, hqeq, hq', hc', hh'⟩ |
    ⟨hq', hc', hh'⟩
  · rw [heq]
    exact hnd
  · rw [idsNodup, requestsOf_eq, hq', hc', hh']
    rw [idsNodup, requestsOf_eq] at hnd
    have hperm : List.Perm
        ((s.queue ++ [r0]) ++ s.currentRequest.toList ++ s.history)
        (r0 :: (s.queue ++ s.currentRequest.toList ++ s.history)) := by
      simp only [List.append_assoc, List.singleton_append, List.cons_append]
      exact List.perm_middle
    rw [List.Perm.nodup_iff (hperm.map MusicRequest.id), List.map_cons,
      List.nodup_cons]
    refine ⟨?_, by simpa [List.append_assoc] using hnd⟩
    intro hmem
    obtain ⟨x, hx, hxid⟩ := List.mem_map.mp hmem
    refine hfresh x ?_ hxid
    rw [requestsOf_eq]
    simpa [List.append_assoc] using hx
  · rw [idsNodup, requestsOf_eq, hq', hc']
    rw [idsNodup, requestsOf_eq, hqeq] at hnd
    rcases hrest with ⟨hcnone, hh'⟩ | ⟨c, hceq, hh'⟩
    · rw [hh']
      rw [hcnone] at hnd
      simp only [Option.toList_none, List.append_nil, List.cons_append] at hnd
      have hperm : List.Perm
          (tl ++ (some { hd with status := RequestStatus.playing }).toList
            ++ s.history)
          ({ hd with status := RequestStatus.playing } :: (tl ++ s.history)) := by
        simp only [Option.toList_some, List.append_assoc, List.singleton_append]
        exact List.perm_middle
      rw [List.Perm.nodup_iff (hperm.map MusicRequest.id)]
      exact hnd
    · rw [hh']
      rw [hceq] at hnd
      have hpermOld : List.Perm (((hd :: tl) ++ (some c).toList) ++ s.history)
          (hd :: (c :: (tl ++ s.history))) := by
        simp only [Option.toList_some, List.cons_append, List.append_assoc,
          List.singleton_append]
        exact List.Perm.cons _ List.perm_middle
      rw [List.Perm.nodup_iff (hpermOld.map MusicRequest.id)] at hnd
      have hperm : List.Perm
          (tl ++ (some { hd with status := RequestStatus.playing }).toList
            ++ (s.history ++ [{ c with status := RequestStatus.completed }]))
          ({ hd with status := RequestStatus.playing } ::
            ({ c with status := RequestStatus.completed } :: (tl ++ s.history))) := by
        simp only [Option.toList_some, List.append_assoc, List.singleton_append]
        refine List.Perm.trans List.perm_middle (List.Perm.cons _ ?_)
        rw [← List.append_assoc]
        exact List.perm_append_singleton _ _
      rw [List.Perm.nodup_iff (hperm.map MusicRequest.id)]
      exact hnd
  · rw [idsNodup, requestsOf_eq, hq', hc', hh']
    rw [idsNodup, requestsOf_eq, hceq] at hnd
    have hpermOld : List.Perm ((s.queue ++ (some c).toList) ++ s.history)
        (c :: (s.queue ++ s.history)) := by
      simp only [Option.toList_some, List.append_assoc, List.singleton_append]
      exact List.perm_middle
    rw [List.Perm.nodup_iff (hpermOld.map MusicRequest.id)] at hnd
    have hperm : List.Perm
        (s.queue ++ (none : Option MusicRequest).toList ++
          (s.history ++ [{ c with status := RequestStatus.skipped }]))
        ({ c with status := RequestStatus.skipped } :: (s.queue ++ s.history)) := by
      simp only [Option.toList_none, List.append_nil]
      rw [← List.append_assoc]
      exact List.perm_append_singleton _ _
    rw [List.Perm.nodup_iff (hperm.map MusicRequest.id)]
    exact hnd
  · rw [idsNodup, requestsOf_eq, hq', hc', hh']
    rw [idsNodup, requestsOf_eq, hqeq] at hnd
    have hsub : List.Sublist
        ((l1 ++ l2) ++ s.currentRequest.toList ++ s.history)
        ((l1 ++ q :: l2) ++ s.currentRequest.toList ++ s.history) := by
      have h1 : List.Sublist (l1 ++ l2) (l1 ++ q :: l2) :=
        (List.sublist_cons_self q l2).append_left l1
      exact (h1.append_right _).append_right _
    exact List.Nodup.sublist (hsub.map MusicRequest.id) hnd
  · rw [idsNodup, requestsOf_eq, hq', hc', hh']
    rw [idsNodup, requestsOf_eq] at hnd
    have hsub : List.Sublist
        (([] : List MusicRequest) ++ s.currentRequest.toList ++ s.history)
        (s.queue ++ s.currentRequest.toList ++ s.history) :=
      ((List.nil_sublist s.queue).append_right _).append_right _
    exact List.Nodup.sublist (hsub.map MusicRequest.id) hnd

/-- Across one operation, a held request matched by id moves forward by at
most one lifecycle step. -/
theorem stepPair (s : MusicQueueState) (op : QueueOp) (hWF : WF s)
    (hnd : idsNodup s) (hok : OpOk s op) :
    ∀ r ∈ requestsOf s, ∀ r2 ∈ requestsOf (applyOp s op), r.id = r2.id →
      statusReach r.status r2.status = true := by
  obtain ⟨hqWF, hcWF, hhWF⟩ := hWF
  intro r hr r2 hr2 hid
  rcases applyOp_shape s op hok with heq |
    ⟨r0, hop, hst, hfresh, hq', hc', hh'⟩ |
    ⟨hd, tl, hqeq, hq', hc', hrest⟩ |
    ⟨c, hceq, hq', hc', hh'⟩ |
    ⟨q, l1, l2, hqeq, hq', hc', hh'⟩ |
    ⟨hq', hc', hh'⟩
  · rw [heq] at hr2
    rw [eq_of_same_id hnd hr hr2 hid]
    exact statusReach_refl _
  · rw [requestsOf_eq, hq', hc', hh'] at hr2
    have hsplit : r2 = r0 ∨ r2 ∈ requestsOf s := by
      rw [requestsOf_eq]
      simp only [List.mem_append, List.mem_singleton] at hr2 ⊢
      tauto
    rcases hsplit with h | h
    · exact absurd (hid.trans (by rw [h])) (hfresh r hr)
    · rw [eq_of_same_id hnd hr h hid]
      exact statusReach_refl _
  · have hhdmem : hd ∈ requestsOf s := by
      rw [mem_requestsOf]
      left
      rw [hqeq]
      exact List.mem_cons_self hd tl
    rw [requestsOf_eq, hq', hc'] at hr2
    rcases hrest with ⟨hcnone, hh'⟩ | ⟨c, hceq, hh'⟩
    · rw [hh'] at hr2
      have hsplit : r2 = { hd with status := RequestStatus.playing } ∨
          r2 ∈ requestsOf s := by
        rw [requestsOf_eq, hqeq, hcnone]
        simp only [Option.toList_some, Option.toList_none, List.append_nil,
          List.cons_append, List.mem_append, List.mem_singleton,
          List.mem_cons] at hr2 ⊢
        tauto
      rcases hsplit with h | h
      · have hrhd : r = hd := eq_of_same_id hnd hr hhdmem (by rw [hid, h])
        rw [hrhd, h, hqWF hd (by rw [hqeq]; exact List.mem_cons_self hd tl)]
        rfl
      · rw [eq_of_same_id hnd hr h hid]
        exact statusReach_refl _
    · have hcmem : c ∈ requestsOf s := by
        rw [mem_requestsOf]
        right
        left
        exact hceq
      rw [hh'] at hr2
      have hsplit : r2 = { hd with status := RequestStatus.playing } ∨
          r2 = { c with status := RequestStatus.completed } ∨
          r2 ∈ requestsOf s := by
        rw [requestsOf_eq, hqeq, hceq]
        simp only [Option.toList_some, List.cons_append, List.mem_append,
          List.mem_singleton, List.mem_cons] at hr2 ⊢
        tauto
      rcases hsplit with h | h | h
      · have hrhd : r = hd := eq_of_same_id hnd hr hhdmem (by rw [hid, h])
        rw [hrhd, h, hqWF hd (by rw [hqeq]; exact List.mem_cons_self hd tl)]
        rfl
      · have hrc : r = c := eq_of_same_id hnd hr hcmem (by rw [hid, h])
        rw [hrc, h, hcWF c hceq]
        rfl
      · rw [eq_of_same_id hnd hr h hid]
        exact statusReach_refl _
  · have hcmem : c ∈ requestsOf s := by
      rw [mem_requestsOf]
      right
      left
      exact hceq
    rw [requestsOf_eq, hq', hc', hh'] at hr2
    have hsplit : r2 = { c with status := RequestStatus.skipped } ∨
        r2 ∈ requestsOf s := by
      rw [requestsOf_eq, hceq]
      simp only [Option.toList_some, Option.toList_none, List.append_nil,
        List.mem_append, List.mem_singleton] at hr2 ⊢
      tauto
    rcases hsplit with h | h
    · have hrc : r = c := eq_of_same_id hnd hr hcmem (by rw [hid, h])
      rw [hrc, h, hcWF c hceq]
      rfl
    · rw [eq_of_same_id hnd hr h hid]
      exact statusReach_refl _
  · rw [requestsOf_eq, hq', hc', hh'] at hr2
    have hmem2 : r2 ∈ requestsOf s := by
      rw [requestsOf_eq, hqeq]
      simp only [List.mem_append, List.mem_cons] at hr2 ⊢
      tauto
    rw [eq_of_same_id hnd hr hmem2 hid]
    exact statusReach_refl _
  · rw [requestsOf_eq, hq', hc', hh'] at hr2
    have hmem2 : r2 ∈ requestsOf s := by
      rw [requestsOf_eq]
      simp only [List.mem_append, List.nil_append] at hr2 ⊢
      tauto
    rw [eq_of_same_id hnd hr hmem2 hid]
    exact statusReach_refl _

/-- Only a still-pending request can disappear from the queue state in one
operation (removal or queue clearing). -/
theorem stepVanish (s : MusicQueueState) (op : QueueOp) (hWF : WF s)
    (hok : OpOk s op) (r : MusicRequest) (hr : r ∈ requestsOf s)
    (hall : ∀ x ∈ requestsOf (applyOp s op), x.id ≠ r.id) :
    r.status = RequestStatus.pending := by
  obtain ⟨hqWF, hcWF, hhWF⟩ := hWF
  rcases applyOp_shape s op hok with heq |
    ⟨r0, hop, hst, hfresh, hq', hc', hh'⟩ |
    ⟨hd, tl, hqeq, hq', hc', hrest⟩ |
    ⟨c, hceq, hq', hc', hh'⟩ |
    ⟨q, l1, l2, hqeq, hq', hc', hh'⟩ |
    ⟨hq', hc', hh'⟩
  · exact absurd rfl (hall r (by rw [heq]; exact hr))
  · refine absurd rfl (hall r ?_)
    rw [requestsOf_eq, hq', hc', hh']
    rw [requestsOf_eq] at hr
    simp only [List.mem_append, List.mem_singleton] at hr ⊢
    tauto
  · rw [requestsOf_eq, hqeq] at hr
    rcases hrest with ⟨hcnone, hh'⟩ | ⟨c, hceq, hh'⟩
    · rw [hcnone] at hr
      simp only [Option.toList_none, List.append_nil, List.cons_append,
        List.mem_cons, List.mem_append] at hr
      rcases hr with h | h | h
      · exact absurd (by rw [h] :
            ({ hd with status := RequestStatus.playing } : MusicRequest).id = r.id)
          (hall { hd with status := RequestStatus.playing }
            (by rw [requestsOf_eq, hq', hc', hh']
                simp [List.mem_append]))
      · exact absurd rfl (hall r
          (by rw [requestsOf_eq, hq', hc', hh']
              simp only [Option.toList_some, List.mem_append, List.mem_singleton]
              tauto))
      · exact absurd rfl (hall r
          (by rw [requestsOf_eq, hq', hc', hh']
              simp only [Option.toList_some, List.mem_append, List.mem_singleton]
              tauto))
    · rw [hceq] at hr
      simp only [Option.toList_some, List.cons_append, List.mem_cons,
        List.mem_append, List.mem_singleton, List.not_mem_nil, or_false] at hr
      rcases hr with h | ((h | h) | h)
      · exact absurd (by rw [h] :
            ({ hd with status := RequestStatus.playing } : MusicRequest).id = r.id)
          (hall { hd with status := RequestStatus.playing }
            (by rw [requestsOf_eq, hq', hc', hh']
                simp [List.mem_append]))
      · exact absurd rfl (hall r
          (by rw [requestsOf_eq, hq', hc', hh']
              simp only [Option.toList_some, List.mem_append, List.mem_singleton]
              tauto))
      · exact absurd (by rw [h] :
            ({ c with status := RequestStatus.completed } : MusicRequest).id = r.id)
          (hall { c with status := RequestStatus.completed }
            (by rw [requestsOf_eq, hq', hc', hh']
                simp only [Option.toList_some, List.mem_append, List.mem_singleton]
                tauto))
      · exact absurd rfl (hall r
          (by rw [requestsOf_eq, hq', hc', hh']
              simp only [Option.toList_some, List.mem_append, List.mem_singleton]
              tauto))
  · rw [requestsOf_eq, hceq] at hr
    simp only [Option.toList_some, List.mem_append, List.mem_singleton] at hr
    rcases hr with h | h
    · rcases h with h | h
      · exact absurd rfl (hall r
          (by rw [requestsOf_eq, hq', hc', hh']
              simp only [Option.toList_none, List.append_nil, List.mem_append,
                List.mem_singleton]
              tauto))
      · exact absurd (by rw [h] :
            ({ c with status := RequestStatus.skipped } : MusicRequest).id = r.id)
          (hall { c with status := RequestStatus.skipped }
            (by rw [requestsOf_eq, hq', hc', hh']
                simp only [Option.toList_none, List.append_nil, List.mem_append,
                  List.mem_singleton]
                tauto))
    · exact absurd rfl (hall r
        (by rw [requestsOf_eq, hq', hc', hh']
            simp only [Option.toList_none, List.append_nil, List.mem_append,
              List.mem_singleton]
            tauto))
  · rw [requestsOf_eq, hqeq] at hr
    simp only [List.mem_append, List.mem_cons] at hr
    rcases hr with h | h
    · rcases h with h | h
      · rcases h with h | h
        · exact absurd rfl (hall r
            (by rw [requestsOf_eq, hq', hc', hh']
                simp only [List.mem_append]
                tauto))
        · rcases h with h | h
          · rw [h]
            exact hqWF q (by rw [hqeq]; simp)
          · exact absurd rfl (hall r
              (by rw [requestsOf_eq, hq', hc', hh']
                  simp only [List.mem_append]
                  tauto))
      · exact absurd rfl (hall r
          (by rw [requestsOf_eq, hq', hc', hh']
              simp only [List.mem_append]
              tauto))
    · exact absurd rfl (hall r
        (by rw [requestsOf_eq, hq', hc', hh']
            simp only [List.mem_append]
            tauto))
  · rw [requestsOf_eq] at hr
    simp only [List.mem_append] at hr
    rcases hr with h | h
    · rcases h with h | h
      · exact hqWF r h
      · exact absurd rfl (hall r
          (by rw [requestsOf_eq, hq', hc', hh']
              simp only [List.mem_append, List.nil_append]
              tauto))
    · exact absurd rfl (hall r
        (by rw [requestsOf_eq, hq', hc', hh']
            simp only [List.mem_append, List.nil_append]
            tauto))

/-- A fresh `MusicQueue` is status well-formed. -/
theorem WF_musicQueueInit (M d : Nat) : WF (musicQueueInit M d) := by
  refine ⟨?_, ?_, ?_⟩
  · intro r h
    simp [musicQueueInit] at h
  · intro r h
    simp [musicQueueInit] at h
  · intro r h
    simp [musicQueueInit] at h

/-- A fresh `MusicQueue` holds no duplicate ids. -/
theorem idsNodup_musicQueueInit (M d : Nat) : idsNodup (musicQueueInit M d) := by
  simp [idsNodup, requestsOf, musicQueueInit]

/-- C5: over any sequence of `MusicQueue` operations (fresh pending requests
with fresh ids being added), a request still held after the run, matched by id
with one held before, has only moved forward through
pending → playing → completed | skipped | failed — never backward. -/
theorem status_monotone_over_ops : ∀ (ops : List QueueOp) (s : MusicQueueState),
    WF s → idsNodup s → ValidOps s ops → statusMonotone s ops := by
  intro ops
  induction ops with
  | nil =>
    intro s hWF hnd hops r hr r2 hr2 hid
    have hr2s : r2 ∈ requestsOf s := hr2
    rw [eq_of_same_id hnd hr hr2s hid]
    exact statusReach_refl _
  | cons op rest ih =>
    intro s hWF hnd hops r hr r2 hr2 hid
    obtain ⟨hok, hrest⟩ := hops
    have hWF2 := stepWF s op hWF hok
    have hnd2 := stepNodup s op hnd hok
    have hrun : runOps s (op :: rest) = runOps (applyOp s op) rest := by
      simp [runOps]
    rw [hrun] at hr2
    by_cases hex : ∃ x ∈ requestsOf (applyOp s op), x.id = r.id
    · obtain ⟨x, hx, hxid⟩ := hex
      have hstep := stepPair s op hWF hnd hok r hr x hx hxid.symm
      have htail := ih (applyOp s op) hWF2 hnd2 hrest x hx r2 hr2
        (by rw [hxid, hid])
      exact statusReach_trans _ _ _ hstep htail
    · push_neg at hex
      rw [stepVanish s op hWF hok r hr hex]
      exact statusReach_pending _

/-- Witness for C5: a fresh queue runs admit → play → skip. -/
theorem status_monotone_over_ops_witness :
    WF (musicQueueInit 50 600) ∧ idsNodup (musicQueueInit 50 600) ∧
    ValidOps (musicQueueInit 50 600) opsSmallTrace ∧
    statusMonotone (musicQueueInit 50 600) opsSmallTrace := by
  have hops : ValidOps (musicQueueInit 50 600) opsSmallTrace :=
    ⟨⟨rfl, by decide⟩, trivial, trivial, trivial⟩
  exact ⟨WF_musicQueueInit 50 600, idsNodup_musicQueueInit 50 600, hops,
    status_monotone_over_ops opsSmallTrace (musicQueueInit 50 600)
      (WF_musicQueueInit 50 600) (idsNodup_musicQueueInit 50 600) hops⟩

/-- Updating key `k` leaves lookups of other keys unchanged (entry list). -/
theorem find?_dictSet_ne (d : List (String × Int)) (k u : String) (v : Int)
    (hne : u ≠ k) :
    ((d.map (fun p => if p.1 == k then (k, v) else p)).find? (fun q => q.1 == u))
      = d.find? (fun q => q.1 == u) := by
  induction d with
  | nil => rfl
  | cons p d ih =>
    cases hb : (p.1 == k) with
    | true =>
      have hp : p.1 = k := by simpa using hb
      have h1 : ((k, v).1 == u) = false := by
        simp only [beq_eq_false_iff_ne, ne_eq]
        intro h
        exact hne h.symm
      have h2 : (p.1 == u) = false := by
        rw [hp]
        exact h1
      simp only [List.map_cons, hb, if_true, List.find?_cons, h1, h2,
        Bool.false_eq_true, if_false]
      exact ih
    | false =>
      simp only [List.map_cons, hb, Bool.false_eq_true, if_false,
        List.find?_cons]
      cases hpu : (p.1 == u) with
      | true => rfl
      | false => exact ih

/-- Updating key `k` leaves reads of other keys unchanged. -/
theorem dictGet_dictSet_ne (d : List (String × Int)) (k u : String) (v : Int)
    (hne : u ≠ k) : dictGet (dictSet d k v) u 0 = dictGet d u 0 := by
  rw [dictSet]
  by_cases h : dictMem d k
  · rw [if_pos h, dictGet, find?_dictSet_ne d k u v hne, dictGet]
  · rw [if_neg h, dictGet, List.find?_append]
    have hk : ((k, v).1 == u) = false := by
      simp only [beq_eq_false_iff_ne, ne_eq]
      intro hcontr
      exact hne hcontr.symm
    cases hf : d.find? (fun q => q.1 == u) with
    | some p =>
      simp only [hf, Option.or_some, dictGet]
    | none =>
      simp only [hf, Option.none_or, List.find?_cons, hk, Bool.false_eq_true,
        if_false, List.find?_nil, dictGet]

/-- A key with no entry reads the default. -/
theorem dictGet_of_not_mem (d : List (String × Int)) (u : String)
    (h : dictMem d u = false) : dictGet d u 0 = 0 := by
  rw [dictGet]
  cases hf : d.find? (fun p => p.1 == u) with
  | none => rfl
  | some p =>
    rw [dictMem, hf] at h
    simp at h

/-- Every `MusicQueue` operation except `clear_queue` preserves the
per-requester counter invariant. -/
theorem countInv_step (s : MusicQueueState) (op : QueueOp) (hinv : CountInv s)
    (hnc : ∀ b, op ≠ QueueOp.clear b) : CountInv (applyOp s op) := by
  cases op with
  | add r0 =>
    cases hv : validateRequest s r0 with
    | some err =>
      simp only [applyOp, addRequest, hv]
      exact hinv
    | none =>
      by_cases hq : s.queue.length ≥ s.maxQueueSize
      · simp only [applyOp, addRequest, hv]
        rw [if_pos hq]
        exact hinv
      · by_cases hu : dictGet s.userRequestLimits r0.requester 0 ≥
            (s.maxRequestsPerUser : Int)
        · simp only [applyOp, addRequest, hv]
          rw [if_neg hq, if_pos hu]
          exact hinv
        · have hstate : applyOp s (QueueOp.add r0) = { s with
              queue := s.queue ++ [r0]
              userRequestLimits := dictSet s.userRequestLimits r0.requester
                (dictGet s.userRequestLimits r0.requester 0 + 1)
              statsTotalRequests := s.statsTotalRequests + 1 } := by
            simp only [applyOp, addRequest, hv]
            rw [if_neg hq, if_neg hu]
          rw [hstate]
          intro u
          have houts : outstanding { s with
              queue := s.queue ++ [r0]
              userRequestLimits := dictSet s.userRequestLimits r0.requester
                (dictGet s.userRequestLimits r0.requester 0 + 1)
              statsTotalRequests := s.statsTotalRequests + 1 } u
              = outstanding s u + (if (r0.requester == u) = true then 1 else 0) := by
            by_cases hb : (r0.requester == u) = true
            · simp [outstanding, List.filter_append, List.filter_cons, hb]
              omega
            · simp [outstanding, List.filter_append, List.filter_cons, hb]
          rw [houts]
          by_cases hue : u = r0.requester
          · subst hue
            rw [dictGet_set_self, hinv r0.requester]
            simp only [beq_self_eq_true, if_true]
            push_cast
            omega
          · rw [dictGet_dictSet_ne _ _ _ _ hue, hinv u]
            have hb : (r0.requester == u) = false := by
              simp only [beq_eq_false_iff_ne, ne_eq]
              intro hcontr
              exact hue hcontr.symm
            rw [hb]
            simp
  | next =>
    cases hq : s.queue with
    | nil =>
      have hstate : applyOp s QueueOp.next = s := by
        simp [applyOp, getNextRequest, hq]
      rw [hstate]
      exact hinv
    | cons hd tl =>
      cases hc : s.currentRequest with
      | none =>
        have hstate : applyOp s QueueOp.next = { s with
            queue := tl
            currentRequest := some { hd with status := RequestStatus.playing } } := by
          simp [applyOp, getNextRequest, hq, hc]
        rw [hstate]
        intro u
        have houtsS : outstanding s u
            = (tl.filter (fun r => r.requester == u)).length
              + (if (hd.requester == u) = true then 1 else 0) := by
          by_cases hb : (hd.requester == u) = true
          · simp [outstanding, hq, hc, List.filter_cons, hb]
          · simp [outstanding, hq, hc, List.filter_cons, hb]
        have houtsN : outstanding { s with
            queue := tl
            currentRequest := some { hd with status := RequestStatus.playing } } u
            = (tl.filter (fun r => r.requester == u)).length
              + (if (hd.requester == u) = true then 1 else 0) := by
          by_cases hb : (hd.requester == u) = true
          · simp [outstanding, hb]
          · simp [outstanding, hb]
        rw [houtsN, ← houtsS]
        exact hinv u
      | some c =>
        have hmemc : dictMem s.userRequestLimits c.requester = true := by
          cases hm : dictMem s.userRequestLimits c.requester with
          | true => rfl
          | false =>
            exfalso
            have h0 := dictGet_of_not_mem _ _ hm
            rw [hinv c.requester] at h0
            have hout : 1 ≤ outstanding s c.requester := by
              simp [outstanding, hc]
            omega
        have hstate : applyOp s QueueOp.next = { s with
            queue := tl
            history := s.history ++ [{ c with status := RequestStatus.completed }]
            currentRequest := some { hd with status := RequestStatus.playing }
            userRequestLimits := dictSet s.userRequestLimits c.requester
              (dictGet s.userRequestLimits c.requester 0 - 1)
            statsCompletedSongs := s.statsCompletedSongs + 1
            statsTotalDurationPlayed := s.statsTotalDurationPlayed + c.duration } := by
          simp only [applyOp, getNextRequest, hq, hc, hmemc, if_true]
        rw [hstate]
        intro u
        have houtsS : outstanding s u
            = (tl.filter (fun r => r.requester == u)).length
              + (if (hd.requester == u) = true then 1 else 0)
              + (if (c.requester == u) = true then 1 else 0) := by
          by_cases hb1 : (hd.requester == u) = true <;>
            by_cases hb2 : (c.requester == u) = true <;>
            simp [outstanding, hq, hc, List.filter_cons, hb1, hb2] <;> omega
        have houtsN : outstanding { s with
            queue := tl
            history := s.history ++ [{ c with status := RequestStatus.completed }]
            currentRequest := some { hd with status := RequestStatus.playing }
            userRequestLimits := dictSet s.userRequestLimits c.requester
              (dictGet s.userRequestLimits c.requester 0 - 1)
            statsCompletedSongs := s.statsCompletedSongs + 1
            statsTotalDurationPlayed := s.statsTotalDurationPlayed + c.duration } u
            = (tl.filter (fun r => r.requester == u)).length
              + (if (hd.requester == u) = true then 1 else 0) := by
          by_cases hb : (hd.requester == u) = true
          · simp [outstanding, hb]
          · simp [outstanding, hb]
        rw [houtsN]
        have e1 := hinv u
        rw [houtsS] at e1
        by_cases hue : u = c.requester
        · subst hue
          rw [dictGet_set_self]
          rw [beq_self_eq_true] at e1
          simp only [if_true] at e1
          rw [e1]
          push_cast
          omega
        · have hb : (c.requester == u) = false := by
            simp only [beq_eq_false_iff_ne, ne_eq]
            intro hcontr
            exact hue hcontr.symm
          rw [dictGet_dictSet_ne _ _ _ _ hue]
          rw [hb] at e1
          simp only [Bool.false_eq_true, if_false, Nat.add_zero] at e1
          exact e1
  | skip reason =>
    cases hc : s.currentRequest with
    | none =>
      have hstate : applyOp s (QueueOp.skip reason) = s := by
        simp [applyOp, skipCurrent, hc]
      rw [hstate]
      exact hinv
    | some c =>
      have hmemc : dictMem s.userRequestLimits c.requester = true := by
        cases hm : dictMem s.userRequestLimits c.requester with
        | true => rfl
        | false =>
          exfalso
          have h0 := dictGet_of_not_mem _ _ hm
          rw [hinv c.requester] at h0
          have hout : 1 ≤ outstanding s c.requester := by
            simp [outstanding, hc]
          omega
      have hstate : applyOp s (QueueOp.skip reason) = { s with
          history := s.history ++ [{ c with status := RequestStatus.skipped }]
          statsSkippedSongs := s.statsSkippedSongs + 1
          userRequestLimits := dictSet s.userRequestLimits c.requester
            (dictGet s.userRequestLimits c.requester 0 - 1)
          currentRequest := none } := by
        simp only [applyOp, skipCurrent, hc, hmemc, if_true]
      rw [hstate]
      intro u
      have houtsS : outstanding s u
          = (s.queue.filter (fun r => r.requester == u)).length
            + (if (c.requester == u) = true then 1 else 0) := by
        by_cases hb : (c.requester == u) = true
        · simp [outstanding, hc, hb]
        · simp [outstanding, hc, hb]
      have houtsN : outstanding { s with
          history := s.history ++ [{ c with status := RequestStatus.skipped }]
          statsSkippedSongs := s.statsSkippedSongs + 1
          userRequestLimits := dictSet s.userRequestLimits c.requester
            (dictGet s.userRequestLimits c.requester 0 - 1)
          currentRequest := none } u
          = (s.queue.filter (fun r => r.requester == u)).length := by
        simp [outstanding]
      rw [houtsN]
      have e1 := hinv u
      rw [houtsS] at e1
      by_cases hue : u = c.requester
      · subst hue
        rw [dictGet_set_self]
        rw [beq_self_eq_true] at e1
        simp only [if_true] at e1
        rw [e1]
        push_cast
        omega
      · have hb : (c.requester == u) = false := by
          simp only [beq_eq_false_iff_ne, ne_eq]
          intro hcontr
          exact hue hcontr.symm
        rw [dictGet_dictSet_ne _ _ _ _ hue]
        rw [hb] at e1
        simp only [Bool.false_eq_true, if_false, Nat.add_zero] at e1
        exact e1
  | remove rid u0 =>
    cases hs : scanRemove s.queue rid u0 with
    | notFound =>
      have hstate : applyOp s (QueueOp.remove rid u0) = s := by
        simp [applyOp, removeRequest, hs]
      rw [hstate]
      exact hinv
    | forbidden =>
      have hstate : applyOp s (QueueOp.remove rid u0) = s := by
        simp [applyOp, removeRequest, hs]
      rw [hstate]
      exact hinv
    | removed q rest =>
      obtain ⟨l1, l2, hqd, hrest⟩ := scanRemove_removed_decomp s.queue rid u0 q rest hs
      have hmemq : dictMem s.userRequestLimits q.requester = true := by
        cases hm : dictMem s.userRequestLimits q.requester with
        | true => rfl
        | false =>
          exfalso
          have h0 := dictGet_of_not_mem _ _ hm
          rw [hinv q.requester] at h0
          have hout : 1 ≤ outstanding s q.requester := by
            simp [outstanding, hqd, List.filter_append, List.filter_cons]
            omega
          omega
      have hstate : applyOp s (QueueOp.remove rid u0) = { s with
          queue := rest
          userRequestLimits := dictSet s.userRequestLimits q.requester
            (dictGet s.userRequestLimits q.requester 0 - 1) } := by
        simp only [applyOp, removeRequest, hs, hmemq, if_true]
      rw [hstate]
      intro u
      have houtsS : outstanding s u
          = ((l1 ++ l2).filter (fun r => r.requester == u)).length
            + (if (q.requester == u) = true then 1 else 0)
            + (match s.currentRequest with
                | some c => if (c.requester == u) = true then 1 else 0
                | none => 0) := by
        by_cases hb : (q.requester == u) = true
        · simp [outstanding, hqd, List.filter_append, List.filter_cons, hb]
          omega
        · simp [outstanding, hqd, List.filter_append, List.filter_cons, hb]
      have houtsN : outstanding { s with
          queue := rest
          userRequestLimits := dictSet s.userRequestLimits q.requester
            (dictGet s.userRequestLimits q.requester 0 - 1) } u
          = ((l1 ++ l2).filter (fun r => r.requester == u)).length
            + (match s.currentRequest with
                | some c => if (c.requester == u) = true then 1 else 0
                | none => 0) := by
        simp [outstanding, hrest]
      rw [houtsN]
      have e1 := hinv u
      rw [houtsS] at e1
      by_cases hue : u = q.requester
      · subst hue
        rw [dictGet_set_self]
        rw [beq_self_eq_true] at e1
        simp only [if_true] at e1
        rw [e1]
        push_cast
        omega
      · have hb : (q.requester == u) = false := by
          simp only [beq_eq_false_iff_ne, ne_eq]
          intro hcontr
          exact hue hcontr.symm
        rw [dictGet_dictSet_ne _ _ _ _ hue]
        rw [hb] at e1
        simp only [Bool.false_eq_true, if_false, Nat.add_zero] at e1
        exact e1
  | clear b =>
    exact absurd rfl (hnc b)

/-- A fresh `MusicQueue` satisfies the counter invariant. -/
theorem countInv_musicQueueInit (M d : Nat) : CountInv (musicQueueInit M d) := by
  intro u
  simp [dictGet, musicQueueInit, outstanding, List.find?]

/-- Counterexample for C10: admit a song, start playing it, clear the queue
(wiping all counters), admit a second song, let the first complete and skip
the second — alice's counter reads -1. -/
theorem user_counter_negative_counterexample :
    dictGet (runOps (musicQueueInit 50 600) opsClearTrace).userRequestLimits
      "alice" 0 = -1 := by
  decide

/-- C10 (amended): over every sequence of `add_request`, `get_next_request`,
`skip_current` and `remove_request` operations — `clear_queue` excluded — a
state satisfying the counter invariant keeps it, and every per-requester
counter in `user_request_limits` stays non-negative. -/
theorem counts_nonneg_without_clear : ∀ (ops : List QueueOp) (s : MusicQueueState),
    CountInv s → noClearOps ops →
    CountInv (runOps s ops) ∧
    ∀ u, 0 ≤ dictGet (runOps s ops).userRequestLimits u 0 := by
  intro ops
  induction ops with
  | nil =>
    intro s hinv _
    refine ⟨hinv, fun u => ?_⟩
    show 0 ≤ dictGet s.userRequestLimits u 0
    rw [hinv u]
    exact Int.natCast_nonneg _
  | cons op rest ih =>
    intro s hinv hnc
    have hnc1 : ∀ b, op ≠ QueueOp.clear b :=
      fun b => hnc op (List.mem_cons_self _ _) b
    have hncr : noClearOps rest :=
      fun o ho b => hnc o (List.mem_cons_of_mem _ ho) b
    have hstep := countInv_step s op hinv hnc1
    have hrun : runOps s (op :: rest) = runOps (applyOp s op) rest := by
      simp [runOps]
    rw [hrun]
    exact ih (applyOp s op) hstep hncr

/-- Witness for C10 (amended): the three-step trace from a fresh queue. -/
theorem counts_nonneg_without_clear_witness :
    CountInv (musicQueueInit 50 600) ∧ noClearOps opsSmallTrace ∧
    (CountInv (runOps (musicQueueInit 50 600) opsSmallTrace) ∧
     ∀ u, 0 ≤ dictGet
       (runOps (musicQueueInit 50 600) opsSmallTrace).userRequestLimits u 0) := by
  have hnc : noClearOps opsSmallTrace := by
    show ∀ op ∈ opsSmallTrace, ∀ b, op ≠ QueueOp.clear b
    decide
  exact ⟨countInv_musicQueueInit 50 600, hnc,
    counts_nonneg_without_clear opsSmallTrace (musicQueueInit 50 600)
      (countInv_musicQueueInit 50 600) hnc⟩

end Tikbot
